import Mathlib

/-!
# chariot: identifier generator and ledger repository

A shallow embedding of `internal/identifier/identifier.go` and of
`internal/accounts/{models,repo,sql}.go`.

Conventions of the embedding.

* A Go byte is a natural number (its code); a Go `string` and a `[]byte` are
  both lists of bytes, `[]byte(str)` and `string(b)` being the identity.
* The global `counter`, the wall clock and the pooled random source are explicit
  arguments: every `time.Now()` and every `rng.Intn` is a value handed in by the
  caller of the embedded function.
* The database is a value of type `Store`: the two tables, each one the list of
  its rows in insertion order. Every SQL statement is a function on `Store`
  and every statement can fail for a reason outside the program
  (connectivity, time-out): a Boolean of the environment record says so.
-/

namespace identifier

/-! ## Constants of `identifier.go` -/

/-- The constant `prefix` of the source (renamed: the word is reserved in Lean), the bytes of "c-". -/
def idPrefix : List Nat := [99, 45]

/-- The constant `alphaNumChars`: the bytes of
"0123456789ABCDEFGHIJKLMNOPQRSTUVWXYZabcdefghijklmnopqrstuvwxyz". -/
def alphaNumChars : List Nat :=
  [48, 49, 50, 51, 52, 53, 54, 55, 56, 57,
   65, 66, 67, 68, 69, 70, 71, 72, 73, 74, 75, 76, 77, 78, 79, 80, 81, 82, 83,
   84, 85, 86, 87, 88, 89, 90,
   97, 98, 99, 100, 101, 102, 103, 104, 105, 106, 107, 108, 109, 110, 111, 112,
   113, 114, 115, 116, 117, 118, 119, 120, 121, 122]

def timeSeqLen : Nat := 8
def randSeqLen : Nat := 6
def counterSeqLen : Nat := 4
def identifierLength : Nat := 20

/-- The type `Identifier`: a struct holding the array `bytes [identifierLength]byte`. -/
structure Identifier where
  bytes : List Nat
  deriving DecidableEq, Repr

/-- The Go zero value `[n]byte{}`. -/
def zeroBytes (n : Nat) : List Nat := List.replicate n 0

/-- The Go zero value `Identifier{}`. -/
def Identifier.zero : Identifier := ⟨zeroBytes identifierLength⟩

/-- The method `String`: `string(i.bytes[:])`. -/
def Identifier.String (i : Identifier) : List Nat := i.bytes

/-- The method `Bytes`. -/
def Identifier.Bytes (i : Identifier) : List Nat := i.bytes

/-- The Go builtin `copy(dst[off:], src)`: overwrites `dst` from index `off` on with
the first `min (len dst - off) (len src)` elements of `src`. -/
def copyAt (dst : List Nat) (off : Nat) (src : List Nat) : List Nat :=
  dst.take off ++ src.take (dst.length - off) ++ dst.drop (off + min src.length (dst.length - off))

/-- Go's comparison `a < b` of two strings: byte-wise lexicographic. -/
def strLt : List Nat → List Nat → Bool
  | [], [] => false
  | [], _ :: _ => true
  | _ :: _, [] => false
  | x :: xs, y :: ys => decide (x < y) || (x == y && strLt xs ys)

/-! ## Errors (`errors.go`) -/

inductive errReason where
  | BadLength
  | BadFormat
  deriving DecidableEq, Repr

structure ValidationError where
  reason : errReason
  deriving DecidableEq, Repr

/-! ## Validation -/

/-- The function `validateLength`. -/
def validateLength (b : List Nat) : Bool := b.length == identifierLength

/-- The character class `[0-9A-Za-z]` of `validationPattern`. -/
def classAlnum (c : Nat) : Bool :=
  (48 ≤ c && c ≤ 57) || (65 ≤ c && c ≤ 90) || (97 ≤ c && c ≤ 122)

/-- A match of `[0-9A-Za-z]{n}$` against the whole of the remaining input. -/
def matchAlnumToEnd : Nat → List Nat → Bool
  | 0, [] => true
  | 0, _ :: _ => false
  | _ + 1, [] => false
  | n + 1, c :: cs => classAlnum c && matchAlnumToEnd n cs

/-- The function `validatePattern`: `regexValidationPattern.Match(b)` for the anchored
pattern `^c-[0-9A-Za-z]{18}$` (in Go `$` without the `m` flag matches only at the end of
the text). -/
def validatePattern (b : List Nat) : Bool :=
  match b with
  | 99 :: 45 :: rest => matchAlnumToEnd 18 rest
  | _ => false

/-- The function `FromString`. -/
def FromString (str : List Nat) : Except ValidationError Identifier :=
  let byteStr := str
  if !validateLength byteStr then
    .error ⟨.BadLength⟩
  else if !validatePattern byteStr then
    .error ⟨.BadFormat⟩
  else
    let buff := zeroBytes identifierLength
    .ok ⟨copyAt buff 0 byteStr⟩

/-- The function `FromBytes`. -/
def FromBytes (b : List Nat) : Except ValidationError Identifier :=
  if !validateLength b then
    .error ⟨.BadLength⟩
  else if !validatePattern b then
    .error ⟨.BadFormat⟩
  else
    let buff := zeroBytes identifierLength
    .ok ⟨copyAt buff 0 b⟩

/-- The function `Validate`; its second result is always `nil`. -/
def Validate (id : Identifier) : Bool × Option ValidationError :=
  let byteSlice := id.bytes
  let valid := validateLength byteSlice && validatePattern byteSlice
  (valid, none)

/-! ## Generation -/

/-- The loop of `encodeToAlphaNums`; `i` is the number of iterations left, so the index
written is `i - 1`, running from `len(buff) - 1` down to `0`. -/
def encodeLoop : Nat → Nat → List Nat → List Nat
  | 0, _, buff => buff
  | i + 1, num, buff =>
    let encodingBase := alphaNumChars.length
    let remainder := num % encodingBase
    let val := alphaNumChars.getD remainder 0
    encodeLoop i (num / encodingBase) (buff.set i val)

/-- The function `encodeToAlphaNums` for a non-negative `num`: the contents of `buff`
after the call. -/
def encodeToAlphaNums (num : Nat) (buff : List Nat) : List Nat :=
  encodeLoop buff.length num buff

/-- The function `getTimeSequence`, `timeInt` being `int(time.Now().UnixMilli())`. -/
def getTimeSequence (timeInt : Nat) : List Nat :=
  encodeToAlphaNums timeInt (zeroBytes timeSeqLen)

/-- The function `getCounterSequence`. -/
def getCounterSequence (count : Nat) : List Nat :=
  encodeToAlphaNums count (zeroBytes counterSeqLen)

/-- The loop of `getRandSequence`: `result[i] = alphaNumChars[rng.Intn(62)]` for
`i = from, ..., randSeqLen - 1`; `rng i` is the draw made at index `i`. -/
def randLoop (rng : Nat → Fin 62) : Nat → Nat → List Nat → List Nat
  | 0, _, result => result
  | n + 1, i, result => randLoop rng n (i + 1) (result.set i (alphaNumChars.getD (rng i).val 0))

/-- The function `getRandSequence`. -/
def getRandSequence (rng : Nat → Fin 62) : List Nat :=
  randLoop rng randSeqLen 0 (zeroBytes randSeqLen)

/-- The call `atomic.AddUint32(&counter, 1)`: the new value of the 32-bit counter. -/
def atomicAddUint32 (counter delta : Nat) : Nat := (counter + delta) % 2 ^ 32

/-- The body of `New` after the counter was read: `count` is the value returned by
`atomic.AddUint32`, `timeInt` the millisecond clock reading, `rng` the random draws. -/
def mint (count timeInt : Nat) (rng : Nat → Fin 62) : Identifier :=
  let prefixLen := idPrefix.length
  let timeSeq := getTimeSequence timeInt
  let counterSeq := getCounterSequence count
  let randSeq := getRandSequence rng
  let buff := zeroBytes identifierLength
  let buff := copyAt buff 0 idPrefix
  let buff := copyAt buff prefixLen timeSeq
  let buff := copyAt buff (prefixLen + timeSeq.length) counterSeq
  let buff := copyAt buff (prefixLen + timeSeq.length + counterSeq.length) randSeq
  ⟨buff⟩

/-! ### Specification-side functions for the encoding -/

/-- The character of a base-62 digit: `alphaNumChars[r]`. -/
def alphaNum (r : Nat) : Nat := alphaNumChars.getD r 0

/-- The `k` least significant base-62 digits of `n`, most significant first, each as its
character. -/
def digits62 : Nat → Nat → List Nat
  | 0, _ => []
  | k + 1, n => digits62 k (n / 62) ++ [alphaNum (n % 62)]

/-- What the specification calls a valid identifier string: the 2-character prefix
followed by exactly 18 characters, each one of the 62 characters of the alphabet. -/
def isWellFormed (s : List Nat) : Bool :=
  s.take 2 == idPrefix && (s.drop 2).length == 18 && (s.drop 2).all (fun c => alphaNumChars.contains c)

/-- The function `New`, as a state transformer on the global `counter`. -/
def New (counter timeInt : Nat) (rng : Nat → Fin 62) : Identifier × Nat :=
  let count := atomicAddUint32 counter 1
  (mint count timeInt rng, count)

/-- A run of `New`: the identifiers of consecutive calls, the counter handed from one call
to the next; each call has its own clock reading and random draws. -/
def newSeq : Nat → List (Nat × (Nat → Fin 62)) → List Identifier
  | _, [] => []
  | counter, e :: es =>
    (New counter e.1 e.2).1 :: newSeq (New counter e.1 e.2).2 es

/-- The `k` least significant base-62 digits of `n` as numbers, most significant first. -/
def digitVals : Nat → Nat → List Nat
  | 0, _ => []
  | k + 1, n => digitVals k (n / 62) ++ [n % 62]

/-- The number that a list of base-62 digits, most significant first, stands for. -/
def valueMSB (ds : List Nat) : Nat := ds.foldl (fun acc d => 62 * acc + d) 0

/-- The string of `TestValidFromString`, "c-0UJqBRQX36SNln7ilE". -/
def testValid : List Nat :=
  [99, 45, 48, 85, 74, 113, 66, 82, 81, 88, 51, 54, 83, 78, 108, 110, 55, 105, 108, 69]

/-- A run of 9829857 calls, all at clock reading 0 and with random draws 0. -/
def wrapRun : List (Nat × (Nat → Fin 62)) := List.replicate 9829857 (0, fun _ => 0)

end identifier

namespace accounts

open identifier

/-! ## Rows (`models.go`) -/

/-- A Go `string` that is not an identifier: a name, a description, an idempotency key. -/
abbrev Text := List Nat

/-- A `time.Time`: an instant, as a position on the time axis. -/
abbrev Time := Int

inductive TransactionType where
  | Credit
  | Debit
  deriving DecidableEq, Repr

inductive TransactionStatus where
  | Pending
  | Complete
  | Failed
  deriving DecidableEq, Repr

/-- The struct `Account`. `Balance` is a Go `int`: the field holds any integer the
database hands over, and the arithmetic of the program on it wraps at 64 bits (`wrapInt`). -/
structure Account where
  Id : Identifier
  UserId : Identifier
  Name : Text
  Balance : Int
  CreatedAt : Time
  UpdatedAt : Time
  deriving DecidableEq, Repr

/-- The struct `Transaction`; `Description` is a `*string`. -/
structure Transaction where
  Id : Identifier
  IdempotencyKey : Text
  AccountId : Identifier
  Amount : Int
  TransactionType : TransactionType
  TransactionDate : Time
  Status : TransactionStatus
  Description : Option Text
  deriving DecidableEq, Repr

structure AccountTransferResp where
  SourceTransaction : Transaction
  DestinationTransaction : Transaction
  deriving DecidableEq, Repr

structure ListTransactionsResp where
  Transactions : List Transaction
  NextCursor : Option Identifier
  deriving DecidableEq, Repr

/-! ## The database -/

/-- The two tables, each the list of its rows in insertion order. -/
structure Store where
  accounts : List Account
  transactions : List Transaction
  deriving DecidableEq, Repr

/-- The state a repository call runs in: the database and the global `counter` of the
identifier package. -/
structure World where
  db : Store
  counter : Nat
  deriving DecidableEq, Repr

/-- The errors the repository returns. -/
inductive Error where
  /-- The error `errors.New("transaction already exists")`. -/
  | alreadyExists
  /-- The error `pgx.ErrNoRows` of a `QueryRow(...).Scan` that found no row. -/
  | noRows
  /-- An error of the driver handed on unchanged. -/
  | driver
  /-- The error "failed to insert transaction: ...". -/
  | insertFailed
  /-- The error "failed to commit transaction: ...". -/
  | commitFailed
  /-- A row that `rows.Scan` cannot convert. -/
  | scan
  /-- A run-time panic (index out of range). -/
  | indexOutOfRange
  deriving DecidableEq, Repr

/-- Modelled from the spec: the table declarations are not among the sources; the spec
gives `accounts(id PK, ...)`. True when a row with this primary key may be inserted. -/
def accountKeyFree (s : Store) (a : Account) : Bool :=
  s.accounts.all (fun r => r.Id != a.Id)

/-- Modelled from the spec: the table declarations are not among the sources; the spec
gives `transactions(id PK, idempotency_key UNIQUE, ...)`. True when the row violates
neither constraint. -/
def transactionKeysFree (s : Store) (t : Transaction) : Bool :=
  s.transactions.all (fun r => r.Id != t.Id && r.IdempotencyKey != t.IdempotencyKey)

/-- The statement `accountInsert` run by `Exec`; `fails` is a failure of the statement
for a reason outside the program. -/
def execAccountInsert (s : Store) (a : Account) (fails : Bool) : Except Error Store :=
  if fails || !accountKeyFree s a then .error .driver
  else .ok { s with accounts := s.accounts ++ [a] }

/-- The statement `transactionInsert` run by `Exec`. -/
def execTransactionInsert (s : Store) (t : Transaction) (fails : Bool) : Except Error Store :=
  if fails || !transactionKeysFree s t then .error .driver
  else .ok { s with transactions := s.transactions ++ [t] }

/-- Modelled from the spec: the comparison `id >= $2` of the database on the `id` column,
whose type and collation are not among the sources; the spec orders identifiers
byte-wise. -/
def idGe (a b : List Nat) : Bool := !strLt a b

/-! ## The environment of a call -/

/-- What one call of `id.New` reads: the millisecond clock and the random draws. -/
structure IdEnv where
  timeInt : Nat
  rng : Nat → Fin 62

/-- What `generateIdempotencyKey` followed by `transactionIsUnique` reads: the clock, the
digest (SHA-256 of the formatted text, base64, cut to 32 characters) as a function of
what is formatted, and whether the counting query fails. -/
structure KeyEnv where
  digest : Identifier → Int → Time → TransactionType → Text
  now : Time
  queryFails : Bool

/-- What `txAccountBalanceUpdate` reads. -/
structure UpdateEnv where
  selectFails : Bool
  now : Time
  updateFails : Bool

/-- The environment of `CreateAccount`. -/
structure CreateEnv where
  newId : IdEnv
  now : Time
  insertFails : Bool

/-- The environment of `DepositFunds` and of `WithdrawFunds`. -/
structure MoveEnv where
  key : KeyEnv
  beginFails : Bool
  update : UpdateEnv
  newId : IdEnv
  now : Time
  insertFails : Bool
  commitFails : Bool

/-- The environment of `AccountTransfer`. -/
structure TransferEnv where
  sourceKey : KeyEnv
  destKey : KeyEnv
  beginFails : Bool
  sourceUpdate : UpdateEnv
  destUpdate : UpdateEnv
  sourceId : IdEnv
  sourceNow : Time
  destId : IdEnv
  destNow : Time
  sourceInsertFails : Bool
  destInsertFails : Bool
  commitFails : Bool

/-! ## Go integers -/

/-- The value a Go `int` (64 bits, two's complement) takes when the mathematical result of
an addition or subtraction is `x`: the result wraps around modulo `2 ^ 64`. -/
def wrapInt (x : Int) : Int := (x + 2 ^ 63) % 2 ^ 64 - 2 ^ 63

/-- The values of a Go `int`. -/
abbrev inIntRange (x : Int) : Prop := -2 ^ 63 ≤ x ∧ x < 2 ^ 63

/-! ## `sql.go` -/

/-- The function `txAccountBalanceUpdate`, on the view `tx` of the open transaction. -/
def txAccountBalanceUpdate (e : UpdateEnv) (tx : Store) (accountId : Identifier)
    (changeType : TransactionType) (amount : Int) : Except Error Store :=
  -- SELECT balance FROM accounts WHERE id = $1 FOR UPDATE
  if e.selectFails then .error .driver
  else
    match tx.accounts.find? (fun a => a.Id == accountId) with
    | none => .error .noRows
    | some row =>
      let balance := row.Balance
      let balance :=
        match changeType with
        | .Credit => wrapInt (balance + amount)
        | .Debit => wrapInt (balance - amount)
      -- UPDATE accounts SET balance = $1, updated_at = $2 WHERE id = $3
      if e.updateFails then .error .driver
      else
        .ok { tx with accounts := tx.accounts.map (fun a =>
                if a.Id == accountId then { a with Balance := balance, UpdatedAt := e.now }
                else a) }

/-! ## `repo.go` -/

/-- The function `generateIdempotencyKey`. -/
def generateIdempotencyKey (e : KeyEnv) (accountId : Identifier) (amount : Int)
    (transType : TransactionType) : Text :=
  let timestamp := e.now
  e.digest accountId amount timestamp transType

/-- The function `transactionIsUnique`. The error of `row.Scan(&num)` is not looked at:
when the query fails `num` keeps its zero value. -/
def transactionIsUnique (db : Store) (e : KeyEnv) (key : Text) : Bool :=
  let num : Nat :=
    if e.queryFails then 0
    else (db.transactions.filter (fun t => t.IdempotencyKey == key)).length
  num == 0

/-- The method `CreateAccount`. -/
def CreateAccount (e : CreateEnv) (w : World) (userId : Identifier) (name : Text) :
    Except Error Account × World :=
  let (id, counter) := New w.counter e.newId.timeInt e.newId.rng
  let w := { w with counter := counter }
  let now := e.now
  let account : Account :=
    { Id := id, UserId := userId, Name := name, Balance := 0, CreatedAt := now, UpdatedAt := now }
  match execAccountInsert w.db account e.insertFails with
  | .error err => (.error err, w)
  | .ok db => (.ok account, { w with db := db })

/-- The method `DepositFunds`. The open transaction works on its own view `tx` of the
database; `tx.Commit` makes the view the database, the deferred `tx.Rollback` leaves the
database as it was at `db.Begin`. -/
def DepositFunds (e : MoveEnv) (w : World) (accountId : Identifier) (amount : Int)
    (description : Text) : Except Error Transaction × World :=
  let idempotencyKey := generateIdempotencyKey e.key accountId amount .Credit
  let db := w.db
  if !transactionIsUnique db e.key idempotencyKey then (.error .alreadyExists, w)
  else if e.beginFails then (.error .driver, w)
  else
    let tx := db
    match txAccountBalanceUpdate e.update tx accountId .Credit amount with
    | .error err => (.error err, w)
    | .ok tx =>
      let (id, counter) := New w.counter e.newId.timeInt e.newId.rng
      let w := { w with counter := counter }
      let transaction : Transaction :=
        { Id := id, IdempotencyKey := idempotencyKey, AccountId := accountId, Amount := amount,
          TransactionType := .Credit, TransactionDate := e.now, Status := .Complete,
          Description := some description }
      match execTransactionInsert tx transaction e.insertFails with
      | .error _ => (.error .insertFailed, w)
      | .ok tx =>
        if e.commitFails then (.error .commitFailed, w)
        else (.ok transaction, { w with db := tx })

/-- The method `WithdrawFunds`. The open transaction works on its own view `tx` of the
database; `tx.Commit` makes the view the database, the deferred `tx.Rollback` leaves the
database as it was at `db.Begin`. -/
def WithdrawFunds (e : MoveEnv) (w : World) (accountId : Identifier) (amount : Int)
    (description : Text) : Except Error Transaction × World :=
  let db := w.db
  let idempotencyKey := generateIdempotencyKey e.key accountId amount .Debit
  if !transactionIsUnique db e.key idempotencyKey then (.error .alreadyExists, w)
  else if e.beginFails then (.error .driver, w)
  else
    let tx := db
    match txAccountBalanceUpdate e.update tx accountId .Debit amount with
    | .error err => (.error err, w)
    | .ok tx =>
      let (id, counter) := New w.counter e.newId.timeInt e.newId.rng
      let w := { w with counter := counter }
      let transaction : Transaction :=
        { Id := id, IdempotencyKey := idempotencyKey, AccountId := accountId, Amount := amount,
          TransactionType := .Debit, TransactionDate := e.now, Status := .Complete,
          Description := some description }
      match execTransactionInsert tx transaction e.insertFails with
      | .error _ => (.error .insertFailed, w)
      | .ok tx =>
        if e.commitFails then (.error .commitFailed, w)
        else (.ok transaction, { w with db := tx })

/-- The method `AccountTransfer`. -/
def AccountTransfer (e : TransferEnv) (w : World) (sourceAccountId destAccountId : Identifier)
    (amount : Int) (description : Text) : Except Error AccountTransferResp × World :=
  let db := w.db
  let sourceIdempotencyKey := generateIdempotencyKey e.sourceKey sourceAccountId amount .Debit
  let destIdempotencyKey := generateIdempotencyKey e.destKey destAccountId amount .Credit
  if !transactionIsUnique db e.sourceKey sourceIdempotencyKey
      || !transactionIsUnique db e.destKey destIdempotencyKey then
    (.error .alreadyExists, w)
  else if e.beginFails then (.error .driver, w)
  else
    let tx := db
    match txAccountBalanceUpdate e.sourceUpdate tx sourceAccountId .Debit amount with
    | .error err => (.error err, w)
    | .ok tx =>
      match txAccountBalanceUpdate e.destUpdate tx destAccountId .Credit amount with
      | .error err => (.error err, w)
      | .ok tx =>
        let (sourceTransactionId, counter) := New w.counter e.sourceId.timeInt e.sourceId.rng
        let w := { w with counter := counter }
        let sourceTransaction : Transaction :=
          { Id := sourceTransactionId, IdempotencyKey := sourceIdempotencyKey,
            AccountId := sourceAccountId, Amount := amount, TransactionType := .Debit,
            TransactionDate := e.sourceNow, Status := .Complete,
            Description := some description }
        let (destTransactionId, counter) := New w.counter e.destId.timeInt e.destId.rng
        let w := { w with counter := counter }
        let destTransaction : Transaction :=
          { Id := destTransactionId, IdempotencyKey := destIdempotencyKey,
            AccountId := destAccountId, Amount := amount, TransactionType := .Credit,
            TransactionDate := e.destNow, Status := .Complete,
            Description := some description }
        match execTransactionInsert tx sourceTransaction e.sourceInsertFails with
        | .error _ => (.error .insertFailed, w)
        | .ok tx =>
          match execTransactionInsert tx destTransaction e.destInsertFails with
          | .error _ => (.error .insertFailed, w)
          | .ok tx =>
            if e.commitFails then (.error .commitFailed, w)
            else
              (.ok { SourceTransaction := sourceTransaction,
                     DestinationTransaction := destTransaction },
               { w with db := tx })

/-- The method `Scan` of `Identifier` on a value read from the database: `FromString`. -/
def scanIdentifier (stored : Identifier) : Except Error Identifier :=
  match FromString stored.String with
  | .ok id => .ok id
  | .error _ => .error .scan

/-- One turn of the `rows.Next()` loop of `ListTransactions`: the seven selected columns
are scanned into a fresh `Transaction`, whose `IdempotencyKey` (not selected) stays empty. -/
def scanTransaction (row : Transaction) : Except Error Transaction :=
  match scanIdentifier row.Id, scanIdentifier row.AccountId with
  | .ok id, .ok accountId =>
    .ok { Id := id, IdempotencyKey := [], AccountId := accountId, Amount := row.Amount,
          TransactionType := row.TransactionType, TransactionDate := row.TransactionDate,
          Status := row.Status, Description := row.Description }
  | _, _ => .error .scan

/-- The `rows.Next()` loop of `ListTransactions`. -/
def scanRows : List Transaction → List Transaction → Except Error (List Transaction)
  | [], results => .ok results
  | row :: rows, results =>
    match scanTransaction row with
    | .error err => .error err
    | .ok t => scanRows rows (results ++ [t])

/-- The start value of `ListTransactions` for a nil cursor: "00000000000000000000". -/
def zeroCursor : List Nat := List.replicate 20 48

/-- The query of `ListTransactions`: the rows of the account with `id >= start`, at most
`limit` of them. The statement has no `ORDER BY`: the rows come in the order of the
table. -/
def queryTransactions (db : Store) (accountId : Identifier) (start : List Nat) (limit : Nat) :
    List Transaction :=
  (db.transactions.filter (fun t => t.AccountId == accountId && idGe t.Id.String start)).take limit

/-- The method `ListTransactions`. -/
def ListTransactions (queryFails : Bool) (db : Store) (accountId : Identifier)
    (startCursor : Option Identifier) (pageSize : Nat) : Except Error ListTransactionsResp :=
  let start :=
    match startCursor with
    | none => zeroCursor
    | some c => c.String
  if queryFails then .error .driver
  else
    match scanRows (queryTransactions db accountId start (pageSize + 1)) [] with
    | .error err => .error err
    | .ok results =>
      if results.length > pageSize then
        -- nextCursor = &results[pageSize-1].Id
        if pageSize = 0 then .error .indexOutOfRange
        else
          match results.get? (pageSize - 1) with
          | none => .error .indexOutOfRange
          | some last =>
            .ok { Transactions := results.take pageSize, NextCursor := some last.Id }
      else .ok { Transactions := results, NextCursor := none }

/-- What the query of `GetBalance` does outside the program: `db.Query` may return an
error; the row stream may break after some rows, which makes `rows.Next()` return false
as at the end of the rows (only `rows.Err()`, which the method does not call, tells the two
apart); `rows.Scan` may return an error at some row. -/
structure RowsEnv where
  queryFails : Bool
  breaksAfter : Option Nat
  scanFailsAt : Option Nat

/-- A query that works and whose rows are all delivered and scanned. -/
def RowsEnv.sound : RowsEnv := { queryFails := false, breaksAfter := none, scanFailsAt := none }

/-- The `rows.Next()` loop of `GetBalance`; `i` is the index of the next row, `result` the
Go `int` that accumulates the sum. -/
def sumRows (scanFailsAt : Option Nat) : List Transaction → Nat → Int → Except Error Int
  | [], _, result => .ok result
  | row :: rows, i, result =>
    if scanFailsAt = some i then .error .scan
    else
      match row.TransactionType with
      | .Credit => sumRows scanFailsAt rows (i + 1) (wrapInt (result + row.Amount))
      | .Debit => sumRows scanFailsAt rows (i + 1) (wrapInt (result - row.Amount))

/-- The method `GetBalance`. -/
def GetBalance (e : RowsEnv) (db : Store) (accountId : Identifier) (timestamp : Time) :
    Except Error Int :=
  if e.queryFails then .error .driver
  else
    let rows := db.transactions.filter
      (fun t => t.AccountId == accountId && decide (t.TransactionDate ≤ timestamp))
    let delivered :=
      match e.breaksAfter with
      | none => rows
      | some k => rows.take k
    sumRows e.scanFailsAt delivered 0 0

/-! ## Specification-side notions -/

/-- The body that `DepositFunds` (`transType = Credit`) and `WithdrawFunds`
(`transType = Debit`) have in common, as a function of the type. -/
def moveFunds (transType : TransactionType) (e : MoveEnv) (w : World) (accountId : Identifier)
    (amount : Int) (description : Text) : Except Error Transaction × World :=
  let idempotencyKey := generateIdempotencyKey e.key accountId amount transType
  if !transactionIsUnique w.db e.key idempotencyKey then (.error .alreadyExists, w)
  else if e.beginFails then (.error .driver, w)
  else
    match txAccountBalanceUpdate e.update w.db accountId transType amount with
    | .error err => (.error err, w)
    | .ok tx =>
      let transaction : Transaction :=
        { Id := (New w.counter e.newId.timeInt e.newId.rng).1, IdempotencyKey := idempotencyKey,
          AccountId := accountId, Amount := amount,
          TransactionType := transType, TransactionDate := e.now, Status := .Complete,
          Description := some description }
      let w1 : World := { w with counter := (New w.counter e.newId.timeInt e.newId.rng).2 }
      match execTransactionInsert tx transaction e.insertFails with
      | .error _ => (.error .insertFailed, w1)
      | .ok tx =>
        if e.commitFails then (.error .commitFailed, w1)
        else (.ok transaction, { w1 with db := tx })

/-- The signed change of a balance: `balance += amount` for a credit, `balance -= amount`
for a debit. -/
def delta (transType : TransactionType) (amount : Int) : Int :=
  match transType with
  | .Credit => amount
  | .Debit => -amount

/-- The effect of the `UPDATE` of `txAccountBalanceUpdate` on one row. -/
def setBalance (accountId : Identifier) (balance : Int) (now : Time) (a : Account) : Account :=
  if a.Id == accountId then { a with Balance := balance, UpdatedAt := now } else a

/-- The amount of a transaction with its sign: a credit adds, a debit subtracts. -/
def signedAmount (t : Transaction) : Int :=
  match t.TransactionType with
  | .Credit => t.Amount
  | .Debit => -t.Amount

/-- The complete transactions that reference the account. -/
def completeOf (s : Store) (accountId : Identifier) : List Transaction :=
  s.transactions.filter (fun t => t.AccountId == accountId && t.Status == .Complete)

/-- The signed sum of the complete transactions that reference the account. -/
def ledgerSum (s : Store) (accountId : Identifier) : Int :=
  ((completeOf s accountId).map signedAmount).sum

/-- The stored balance of an account: the `balance` column of its row. -/
def balanceOf (s : Store) (accountId : Identifier) : Option Int :=
  (s.accounts.find? (fun a => a.Id == accountId)).map (fun a => a.Balance)

/-- The transactions of the account dated `timestamp` or earlier. -/
def datedOf (s : Store) (accountId : Identifier) (timestamp : Time) : List Transaction :=
  s.transactions.filter (fun t => t.AccountId == accountId && decide (t.TransactionDate ≤ timestamp))

/-- The as-of balance of the specification: the sum of the amounts of the credits minus
the sum of the amounts of the debits, over the transactions of the account dated
`timestamp` or earlier. -/
def asOfBalance (s : Store) (accountId : Identifier) (timestamp : Time) : Int :=
  (((datedOf s accountId timestamp).filter (fun t => t.TransactionType == .Credit)).map
      (fun t => t.Amount)).sum
    - (((datedOf s accountId timestamp).filter (fun t => t.TransactionType == .Debit)).map
      (fun t => t.Amount)).sum

/-- The lower bound `start` that `ListTransactions` computes from its cursor. -/
def startOf (startCursor : Option Identifier) : List Nat :=
  match startCursor with
  | none => zeroCursor
  | some c => c.String

/-- The rows of the account with `id >= start`, all of them, in table order. -/
def matchingRows (db : Store) (accountId : Identifier) (start : List Nat) : List Transaction :=
  db.transactions.filter (fun t => t.AccountId == accountId && idGe t.Id.String start)

/-- A row as the scan of `ListTransactions` returns it: the idempotency key left empty. -/
def blankKey (row : Transaction) : Transaction := { row with IdempotencyKey := [] }

/-- The stored balances agree with the ledger, as Go integers, up to the pending changes
`d`: the changes of balance already written in the open transaction whose rows are not
inserted yet. -/
def Balanced (s : Store) (d : Identifier → Int) : Prop :=
  ∀ a ∈ s.accounts, a.Balance = wrapInt (ledgerSum s a.Id + d a.Id)

/-- Every transaction references an account of the store. -/
def Referential (s : Store) : Prop :=
  ∀ t ∈ s.transactions, ∃ a ∈ s.accounts, a.Id = t.AccountId

/-- The empty database of a process that has minted no identifier yet. -/
def World.init : World := { db := { accounts := [], transactions := [] }, counter := 0 }

/-- The states the repository can be in: those reached from the empty database by calls
of the four mutating methods, with any arguments and in any environment, the calls
succeeding or not; the process may be restarted in between, which resets the counter. -/
inductive Reachable : World → Prop where
  | init : Reachable World.init
  | restart (w : World) : Reachable w → Reachable { w with counter := 0 }
  | createAccount (w : World) (e : CreateEnv) (userId : Identifier) (name : Text) :
      Reachable w → Reachable (CreateAccount e w userId name).2
  | depositFunds (w : World) (e : MoveEnv) (accountId : Identifier) (amount : Int)
      (description : Text) : Reachable w → Reachable (DepositFunds e w accountId amount description).2
  | withdrawFunds (w : World) (e : MoveEnv) (accountId : Identifier) (amount : Int)
      (description : Text) : Reachable w → Reachable (WithdrawFunds e w accountId amount description).2
  | accountTransfer (w : World) (e : TransferEnv) (source dest : Identifier) (amount : Int)
      (description : Text) : Reachable w → Reachable (AccountTransfer e w source dest amount description).2

/-! ## Two calls of `DepositFunds` at the same time -/

/-- The statement that a call of `DepositFunds` in progress runs next. -/
inductive Pc where
  /-- The calls `generateIdempotencyKey` and `transactionIsUnique`. -/
  | check
  /-- The call `db.Begin`. -/
  | begin
  /-- In `txAccountBalanceUpdate`: `SELECT balance ... FOR UPDATE`, then `balance += amount`. -/
  | select
  /-- In `txAccountBalanceUpdate`: `UPDATE accounts SET balance = $1 ...`. -/
  | update
  /-- The call `id.New` and the `INSERT INTO transactions`. -/
  | insert
  /-- The call `tx.Commit`. -/
  | commit
  /-- The call has returned. -/
  | done
  deriving DecidableEq, Repr

/-- A call of `DepositFunds` in progress: its arguments and environment, the statement it
is at, its local variables `idempotencyKey`, `balance` and `transaction`, and what it
returned once it has. -/
structure Call where
  env : MoveEnv
  amount : Int
  description : Text
  pc : Pc
  idempotencyKey : Text
  balance : Int
  transaction : Option Transaction
  result : Option (Except Error Transaction)

/-- Two calls of `DepositFunds` on the account `accountId`, `calls false` and `calls true`,
running at the same time against the committed database `db`; `lockedBy` is the call whose
transaction holds the exclusive lock of the account's row, if one does. What a transaction
has written and not committed is kept in the local variables of its call and is invisible
to the other one. -/
structure Sys where
  db : Store
  counter : Nat
  accountId : Identifier
  lockedBy : Option Bool
  calls : Bool → Call

/-- Modelled from the spec: the exclusive row lock of section 5 of the spec, which the
database and not the program implements ("Two operations touching the same account
serialize on that lock; the loser blocks until the holder commits or rolls back"). True
when call `i` may take or already holds the lock of the row. -/
def lockFree (s : Sys) (i : Bool) : Bool :=
  match s.lockedBy with
  | none => true
  | some j => j == i

/-- The state in which call `i` has become `c`. -/
def Sys.setCall (s : Sys) (i : Bool) (c : Call) : Sys :=
  { s with calls := Function.update s.calls i c }

/-- The call `i` returns the error `err`; the deferred `tx.Rollback` gives up what the
transaction wrote and releases the lock if the transaction holds it. -/
def rollback (s : Sys) (i : Bool) (err : Error) : Sys :=
  { s.setCall i { s.calls i with pc := .done, result := some (.error err) } with
    lockedBy := if s.lockedBy = some i then none else s.lockedBy }

/-- One statement of call `i`. The result is `none` when the call cannot move: it has
returned, or its statement waits for the row lock that the other call holds. With
`forUpdate` the `SELECT` is the `SELECT ... FOR UPDATE` of the source and takes the lock;
without it (a variant, to compare) the `SELECT` reads without locking and the lock is taken
by the `UPDATE`. A statement reads the committed database. -/
def step (forUpdate : Bool) (s : Sys) (i : Bool) : Option Sys :=
  let c := s.calls i
  match c.pc with
  | .check =>
    let idempotencyKey := generateIdempotencyKey c.env.key s.accountId c.amount .Credit
    if !transactionIsUnique s.db c.env.key idempotencyKey then
      some (s.setCall i { c with pc := .done, idempotencyKey := idempotencyKey,
                                 result := some (.error .alreadyExists) })
    else
      some (s.setCall i { c with pc := .begin, idempotencyKey := idempotencyKey })
  | .begin =>
    if c.env.beginFails then
      some (s.setCall i { c with pc := .done, result := some (.error .driver) })
    else some (s.setCall i { c with pc := .select })
  | .select =>
    if forUpdate && !lockFree s i then none
    else if c.env.update.selectFails then some (rollback s i .driver)
    else
      match s.db.accounts.find? (fun a => a.Id == s.accountId) with
      | none => some (rollback s i .noRows)
      | some row =>
        let balance := row.Balance
        let balance := wrapInt (balance + c.amount)
        some { s.setCall i { c with pc := .update, balance := balance } with
               lockedBy := if forUpdate then some i else s.lockedBy }
  | .update =>
    if !lockFree s i then none
    else if c.env.update.updateFails then some (rollback s i .driver)
    else some { s.setCall i { c with pc := .insert } with lockedBy := some i }
  | .insert =>
    let id := (New s.counter c.env.newId.timeInt c.env.newId.rng).1
    let s := { s with counter := (New s.counter c.env.newId.timeInt c.env.newId.rng).2 }
    let transaction : Transaction :=
      { Id := id, IdempotencyKey := c.idempotencyKey, AccountId := s.accountId,
        Amount := c.amount, TransactionType := .Credit, TransactionDate := c.env.now,
        Status := .Complete, Description := some c.description }
    if c.env.insertFails || !transactionKeysFree s.db transaction then
      some (rollback s i .insertFailed)
    else some (s.setCall i { c with pc := .commit, transaction := some transaction })
  | .commit =>
    if c.env.commitFails then some (rollback s i .commitFailed)
    else
      match c.transaction with
      | none => none
      | some transaction =>
        some { s.setCall i { c with pc := .done, result := some (.ok transaction) } with
               db := { accounts := s.db.accounts.map
                         (setBalance s.accountId c.balance c.env.update.now),
                       transactions := s.db.transactions ++ [transaction] },
               lockedBy := none }
  | .done => none

/-- The run of a schedule, the list of the calls that move one after the other; `none`
when the schedule asks a call to move that cannot: such a schedule is not permitted. -/
def run (forUpdate : Bool) : Sys → List Bool → Option Sys
  | s, [] => some s
  | s, i :: schedule =>
    match step forUpdate s i with
    | none => none
    | some s' => run forUpdate s' schedule

/-- A call of `DepositFunds` that has not started. -/
def Call.start (e : MoveEnv) (amount : Int) (description : Text) : Call :=
  { env := e, amount := amount, description := description, pc := .check,
    idempotencyKey := [], balance := 0, transaction := none, result := none }

/-- Two calls of `DepositFunds` on the account `a`, for `x` and for `y`, about to start in
the state `w`. -/
def Sys.start (w : World) (a : Identifier) (e1 e2 : MoveEnv) (x y : Int) (d1 d2 : Text) : Sys :=
  { db := w.db, counter := w.counter, accountId := a, lockedBy := none,
    calls := fun i => if i then Call.start e2 y d2 else Call.start e1 x d1 }

/-- The call has returned a transaction. -/
def Call.committed (c : Call) : Bool :=
  match c.result with
  | some (.ok _) => true
  | _ => false

/-- The call is between its `SELECT ... FOR UPDATE` and the end of its transaction. -/
def Pc.critical (pc : Pc) : Bool :=
  match pc with
  | .update | .insert | .commit => true
  | _ => false

/-- The number of statements that the call has still to run when none fails. -/
def Pc.rank (pc : Pc) : Nat :=
  match pc with
  | .check => 6
  | .begin => 5
  | .select => 4
  | .update => 3
  | .insert => 2
  | .commit => 1
  | .done => 0

/-- The balance that the committed deposits leave, from the balance `b` at the start. -/
def settled (b : Int) (s : Sys) : Int :=
  match (s.calls false).committed, (s.calls true).committed with
  | false, false => b
  | true, false => wrapInt (b + (s.calls false).amount)
  | false, true => wrapInt (b + (s.calls true).amount)
  | true, true => wrapInt (b + (s.calls false).amount + (s.calls true).amount)

/-- The invariant of the runs with `SELECT ... FOR UPDATE` from a state in which the
account holds `b`: the committed balance is the one the committed deposits leave; the lock
is held by exactly the call that is in its critical section, whose local `balance` is the
committed balance plus its amount; a call has a result exactly when it has returned, and a
transaction when it is about to commit. -/
structure RunInv (b x y : Int) (s : Sys) : Prop where
  amounts : (s.calls false).amount = x ∧ (s.calls true).amount = y
  stored : balanceOf s.db s.accountId = some (settled b s)
  lock : ∀ i, s.lockedBy = some i ↔ (s.calls i).pc.critical = true
  local_balance : ∀ i, (s.calls i).pc.critical = true →
    (s.calls i).balance = wrapInt (settled b s + (s.calls i).amount)
  returned : ∀ i, (s.calls i).pc ≠ .done → (s.calls i).result = none
  pending : ∀ i, (s.calls i).pc = .commit → (s.calls i).transaction ≠ none

/-- The schedule in which the first call runs all its six statements, then the second. -/
def oneAfterTheOther : List Bool :=
  [false, false, false, false, false, false, true, true, true, true, true, true]

/-- A schedule in which both calls read the balance before either writes it. -/
def bothReadFirst : List Bool :=
  [false, false, true, true, false, true, false, false, false, true, true, true]

/-! ## A concrete run -/

/-- Random draws that are all zero. -/
def demoRng : Nat → Fin 62 := fun _ => 0

/-- A key environment whose digest is the one-character text `[k]`; the query works. -/
def demoKey (k : Nat) : KeyEnv := { digest := fun _ _ _ _ => [k], now := 0, queryFails := false }

/-- An environment of `txAccountBalanceUpdate` in which both statements work. -/
def demoUpdate (t : Int) : UpdateEnv := { selectFails := false, now := t, updateFails := false }

/-- An environment of `CreateAccount` at millisecond `t` in which the insert works. -/
def demoCreate (t : Nat) : CreateEnv :=
  { newId := { timeInt := t, rng := demoRng }, now := t, insertFails := false }

/-- An environment of `DepositFunds` and `WithdrawFunds` with key `[k]` at millisecond `t`
in which every statement works. -/
def demoMove (k t : Nat) : MoveEnv :=
  { key := demoKey k, beginFails := false, update := demoUpdate t,
    newId := { timeInt := t, rng := demoRng }, now := t, insertFails := false,
    commitFails := false }

/-- An environment of `AccountTransfer` with keys `[k]` and `[k + 1]` at millisecond `t` in
which every statement works. -/
def demoTransfer (k t : Nat) : TransferEnv :=
  { sourceKey := demoKey k, destKey := demoKey (k + 1), beginFails := false,
    sourceUpdate := demoUpdate t, destUpdate := demoUpdate t,
    sourceId := { timeInt := t, rng := demoRng }, sourceNow := t,
    destId := { timeInt := t, rng := demoRng }, destNow := t,
    sourceInsertFails := false, destInsertFails := false, commitFails := false }

/-- The identifier of a user, minted elsewhere. -/
def demoUser : Identifier := mint 77 900 demoRng

/-- The state after a first account was created at millisecond 1000. -/
def demoW0 : World := (CreateAccount (demoCreate 1000) World.init demoUser []).2

/-- The identifier of the first account, "c-000000G80001000000". -/
def demoA : Identifier := mint 1 1000 demoRng

/-- The state after a second account was created in the same millisecond. -/
def demoW1 : World := (CreateAccount (demoCreate 1000) demoW0 demoUser []).2

/-- The identifier of the second account, "c-000000G80002000000". -/
def demoB : Identifier := mint 2 1000 demoRng

/-- The state after 100 was deposited on the first account. -/
def demoW2 : World := (DepositFunds (demoMove 1 1001) demoW1 demoA 100 []).2

/-- The transaction of that deposit. -/
def demoT1 : Transaction :=
  { Id := mint 3 1001 demoRng, IdempotencyKey := [1], AccountId := demoA, Amount := 100,
    TransactionType := .Credit, TransactionDate := 1001, Status := .Complete,
    Description := some [] }

/-- The state after 50 was transferred from the first account to the second. -/
def demoW3 : World := (AccountTransfer (demoTransfer 5 1002) demoW2 demoA demoB 50 []).2

/-- The two transactions of that transfer. -/
def demoResp : AccountTransferResp :=
  { SourceTransaction :=
      { Id := mint 4 1002 demoRng, IdempotencyKey := [5], AccountId := demoA, Amount := 50,
        TransactionType := .Debit, TransactionDate := 1002, Status := .Complete,
        Description := some [] },
    DestinationTransaction :=
      { Id := mint 5 1002 demoRng, IdempotencyKey := [6], AccountId := demoB, Amount := 50,
        TransactionType := .Credit, TransactionDate := 1002, Status := .Complete,
        Description := some [] } }

/-- The environment of a second deposit whose computed key is `[1]` again, the key of
`demoT1`, and in which the counting query of `transactionIsUnique` fails while the later
statements work. -/
def demoRetry : MoveEnv :=
  { demoMove 1 1003 with key := { demoKey 1 with queryFails := true } }

/-- The state after 40 was withdrawn from the first account of `demoW2`. -/
def demoW4 : World := (WithdrawFunds (demoMove 2 1002) demoW2 demoA 40 []).2

/-- The transaction of that withdrawal. -/
def demoT2 : Transaction :=
  { Id := mint 4 1002 demoRng, IdempotencyKey := [2], AccountId := demoA, Amount := 40,
    TransactionType := .Debit, TransactionDate := 1002, Status := .Complete,
    Description := some [] }

/-- The state after five deposits of 10 on the first account of `demoW1`, at the
milliseconds 1001 to 1005: five transactions whose ids ascend in the order of insertion. -/
def demoFive : World :=
  let w := (DepositFunds (demoMove 1 1001) demoW1 demoA 10 []).2
  let w := (DepositFunds (demoMove 2 1002) w demoA 10 []).2
  let w := (DepositFunds (demoMove 3 1003) w demoA 10 []).2
  let w := (DepositFunds (demoMove 4 1004) w demoA 10 []).2
  (DepositFunds (demoMove 5 1005) w demoA 10 []).2

/-- The id of the `n`-th of these deposits. -/
def demoId (n : Nat) : Identifier := mint (n + 2) (1000 + n) demoRng

/-- The `n`-th of these deposits as `ListTransactions` returns it. -/
def demoRow (n : Nat) : Transaction :=
  { Id := demoId n, IdempotencyKey := [], AccountId := demoA, Amount := 10,
    TransactionType := .Credit, TransactionDate := 1000 + n, Status := .Complete,
    Description := some [] }

/-- The state after two deposits on the first account of `demoW1` between which the wall
clock was set back by a millisecond: the first at 1002, the second at 1001. -/
def demoBack : World :=
  let w := (DepositFunds (demoMove 1 1002) demoW1 demoA 10 []).2
  (DepositFunds (demoMove 2 1001) w demoA 10 []).2

/-- The two deposits of `demoBack` as `ListTransactions` returns them. -/
def demoBackRows : List Transaction :=
  [{ Id := mint 3 1002 demoRng, IdempotencyKey := [], AccountId := demoA, Amount := 10,
     TransactionType := .Credit, TransactionDate := 1002, Status := .Complete,
     Description := some [] },
   { Id := mint 4 1001 demoRng, IdempotencyKey := [], AccountId := demoA, Amount := 10,
     TransactionType := .Credit, TransactionDate := 1001, Status := .Complete,
     Description := some [] }]

/-- The state after 500 was withdrawn from the first account of `demoW2`, which held 100. -/
def demoW5 : World := (WithdrawFunds (demoMove 2 1002) demoW2 demoA 500 []).2

/-- The transaction of that withdrawal. -/
def demoT3 : Transaction :=
  { Id := mint 4 1002 demoRng, IdempotencyKey := [2], AccountId := demoA, Amount := 500,
    TransactionType := .Debit, TransactionDate := 1002, Status := .Complete,
    Description := some [] }

/-- The greatest Go `int`, `2 ^ 63 - 1`. -/
def demoMax : Int := 9223372036854775807

/-- The state after `2 ^ 63 - 1` was deposited on the first account of `demoW1`. -/
def demoO1 : World := (DepositFunds (demoMove 1 1001) demoW1 demoA demoMax []).2

/-- The state after `2 ^ 63 - 1` was deposited on it a second time. -/
def demoO2 : World := (DepositFunds (demoMove 2 1002) demoO1 demoA demoMax []).2

/-- The transaction of that second deposit. -/
def demoT4 : Transaction :=
  { Id := mint 4 1002 demoRng, IdempotencyKey := [2], AccountId := demoA, Amount := demoMax,
    TransactionType := .Credit, TransactionDate := 1002, Status := .Complete,
    Description := some [] }

/-- The state after `2 ^ 63 - 1` was withdrawn from the first account of `demoW1`. -/
def demoU1 : World := (WithdrawFunds (demoMove 1 1001) demoW1 demoA demoMax []).2

/-- The state after 2 more were withdrawn from it. -/
def demoU2 : World := (WithdrawFunds (demoMove 2 1002) demoU1 demoA 2 []).2

/-- The transaction of that second withdrawal. -/
def demoT5 : Transaction :=
  { Id := mint 4 1002 demoRng, IdempotencyKey := [2], AccountId := demoA, Amount := 2,
    TransactionType := .Debit, TransactionDate := 1002, Status := .Complete,
    Description := some [] }

/-- Two deposits, of 10 and of 20, about to start on the first account of `demoW2`, which
holds 100. -/
def demoSys : Sys := Sys.start demoW2 demoA (demoMove 7 1007) (demoMove 8 1008) 10 20 [] []

/-- Two deposits, of 10 and of 20, about to start on the first account of `demoO1`, which
holds `2 ^ 63 - 1`. -/
def demoSysMax : Sys := Sys.start demoO1 demoA (demoMove 7 1007) (demoMove 8 1008) 10 20 [] []

/-- Two deposits, of 10 and of 20, about to start on the first account of `demoW2`; the
`COMMIT` of the second one will fail. -/
def demoSysFail : Sys :=
  Sys.start demoW2 demoA (demoMove 7 1007) { demoMove 8 1008 with commitFails := true }
    10 20 [] []

/-- An identifier that names no account. -/
def demoMissing : Identifier := mint 5 5 demoRng

end accounts

/-! # Theorems -/

namespace identifier

/-! ## The encoding loop -/

theorem alphaNumChars_length : alphaNumChars.length = 62 := by decide

theorem digits62_length (k n : Nat) : (digits62 k n).length = k := by
  induction k generalizing n with
  | zero => rfl
  | succ k ih => simp [digits62, ih]

theorem drop_set_self (l : List Nat) (i v : Nat) (h : i < l.length) :
    (l.set i v).drop i = v :: l.drop (i + 1) := by
  induction l generalizing i with
  | nil => simp at h
  | cons x xs ih =>
    cases i with
    | zero => simp
    | succ j =>
      simp only [List.set_cons_succ, List.drop_succ_cons]
      exact ih j (by simpa using h)

theorem encodeLoop_eq (i num : Nat) (buff : List Nat) (h : i ≤ buff.length) :
    encodeLoop i num buff = digits62 i num ++ buff.drop i := by
  induction i generalizing num buff with
  | zero => simp [encodeLoop, digits62]
  | succ i ih =>
    have hi : i < buff.length := h
    rw [encodeLoop, ih _ _ (by simp; omega), drop_set_self _ _ _ hi]
    simp [digits62, alphaNum, alphaNumChars_length]

theorem encodeToAlphaNums_eq (num : Nat) (buff : List Nat) :
    encodeToAlphaNums num buff = digits62 buff.length num := by
  simp [encodeToAlphaNums, encodeLoop_eq]

theorem alphaNum_lt_iff : ∀ a b : Fin 62, alphaNum a.val < alphaNum b.val ↔ a < b := by
  decide


theorem alphaNum_lt {a b : Nat} (ha : a < 62) (hb : b < 62) :
    alphaNum a < alphaNum b ↔ a < b := by
  have := alphaNum_lt_iff ⟨a, ha⟩ ⟨b, hb⟩
  simpa using this

theorem alphaNum_inj {a b : Nat} (ha : a < 62) (hb : b < 62) :
    alphaNum a = alphaNum b ↔ a = b := by
  constructor
  · intro h
    have h1 := alphaNum_lt ha hb
    have h2 := alphaNum_lt hb ha
    omega
  · intro h; rw [h]

/-! ## Byte-wise order -/

theorem strLt_cons (x y : Nat) (xs ys : List Nat) :
    strLt (x :: xs) (y :: ys) = (decide (x < y) || (x == y && strLt xs ys)) := rfl

theorem strLt_irrefl (p : List Nat) : strLt p p = false := by
  induction p with
  | nil => rfl
  | cons x xs ih => simp [strLt_cons, ih]

theorem strLt_append (p q s t : List Nat) (h : p.length = q.length) :
    strLt (p ++ s) (q ++ t) = true ↔ strLt p q = true ∨ (p = q ∧ strLt s t = true) := by
  induction p generalizing q with
  | nil =>
    cases q with
    | nil => simp [strLt]
    | cons y ys => simp at h
  | cons x xs ih =>
    cases q with
    | nil => simp at h
    | cons y ys =>
      have h2 : xs.length = ys.length := by simpa using h
      have := ih ys h2
      rw [List.cons_append, List.cons_append, strLt_cons, strLt_cons]
      simp only [Bool.or_eq_true, Bool.and_eq_true, decide_eq_true_eq, beq_iff_eq, 
        List.cons.injEq]
      rw [this]; tauto

theorem mod_pow_succ_low (a k : Nat) :
    a % 62 ^ (k + 1) = a % 62 + 62 * (a / 62 % 62 ^ k) := by
  rw [pow_succ', Nat.mod_mul]

theorem snoc_eq_snoc_iff (p q : List Nat) (x y : Nat) :
    p ++ [x] = q ++ [y] ↔ p = q ∧ x = y := by
  constructor
  · intro h
    have := List.append_inj' h rfl
    simpa using this
  · rintro ⟨rfl, rfl⟩; rfl

theorem digits62_eq_iff (k a b : Nat) :
    digits62 k a = digits62 k b ↔ a % 62 ^ k = b % 62 ^ k := by
  induction k generalizing a b with
  | zero => simp [digits62, Nat.mod_one]
  | succ k ih =>
    have ha : a % 62 < 62 := Nat.mod_lt _ (by decide)
    have hb : b % 62 < 62 := Nat.mod_lt _ (by decide)
    rw [digits62, digits62, mod_pow_succ_low, mod_pow_succ_low, snoc_eq_snoc_iff, ih,
      alphaNum_inj ha hb]
    omega

theorem digits62_lt_iff (k a b : Nat) :
    strLt (digits62 k a) (digits62 k b) = true ↔ a % 62 ^ k < b % 62 ^ k := by
  induction k generalizing a b with
  | zero => simp [digits62, Nat.mod_one, strLt]
  | succ k ih =>
    have ha : a % 62 < 62 := Nat.mod_lt _ (by decide)
    have hb : b % 62 < 62 := Nat.mod_lt _ (by decide)
    have hx : strLt [alphaNum (a % 62)] [alphaNum (b % 62)] = true ↔ a % 62 < b % 62 := by
      simp [strLt, alphaNum_lt ha hb]
    rw [digits62, digits62, mod_pow_succ_low, mod_pow_succ_low,
      strLt_append _ _ _ _ (by simp [digits62_length]), ih, digits62_eq_iff, hx]
    omega

/-! ## Layout of a minted identifier -/

theorem zeroBytes_length (n : Nat) : (zeroBytes n).length = n := by simp [zeroBytes]

theorem copyAt_append (a z src : List Nat) (h : src.length ≤ z.length) :
    copyAt (a ++ z) a.length src = a ++ src ++ z.drop src.length := by
  simp only [copyAt, List.length_append, List.take_left', Nat.add_sub_cancel_left]
  rw [List.take_of_length_le h, Nat.min_eq_left h, List.drop_append]

theorem copyAt_zero (z src : List Nat) (h : src.length ≤ z.length) :
    copyAt z 0 src = src ++ z.drop src.length := by
  simpa using copyAt_append [] z src h

theorem randLoop_length (rng : Nat → Fin 62) (n i : Nat) (r : List Nat) :
    (randLoop rng n i r).length = r.length := by
  induction n generalizing i r with
  | zero => rfl
  | succ n ih => simp [randLoop, ih]

theorem getRandSequence_length (rng : Nat → Fin 62) : (getRandSequence rng).length = 6 := by
  simp [getRandSequence, randLoop_length, zeroBytes, randSeqLen]

theorem getTimeSequence_eq (t : Nat) : getTimeSequence t = digits62 8 t := by
  simp [getTimeSequence, encodeToAlphaNums_eq, zeroBytes, timeSeqLen]

theorem getCounterSequence_eq (c : Nat) : getCounterSequence c = digits62 4 c := by
  simp [getCounterSequence, encodeToAlphaNums_eq, zeroBytes, counterSeqLen]

theorem zeroBytes_drop (n k : Nat) : (zeroBytes n).drop k = zeroBytes (n - k) := by
  simp [zeroBytes]

theorem layout (T C R : List Nat) (hT : T.length = 8) (hC : C.length = 4) (hR : R.length = 6) :
    copyAt (copyAt (copyAt (copyAt (zeroBytes 20) 0 idPrefix) 2 T) (2 + T.length) C)
      (2 + T.length + C.length) R = idPrefix ++ T ++ C ++ R := by
  have h1 : copyAt (zeroBytes 20) 0 idPrefix = idPrefix ++ zeroBytes 18 := by decide
  have h2 : copyAt (idPrefix ++ zeroBytes 18) 2 T = idPrefix ++ T ++ zeroBytes 10 := by
    have := copyAt_append idPrefix (zeroBytes 18) T (by simp [zeroBytes_length, hT])
    rw [zeroBytes_drop, hT] at this
    exact this
  have h3 : copyAt (idPrefix ++ T ++ zeroBytes 10) (2 + T.length) C
      = idPrefix ++ T ++ C ++ zeroBytes 6 := by
    have := copyAt_append (idPrefix ++ T) (zeroBytes 10) C (by simp [zeroBytes_length, hC])
    have hl : (idPrefix ++ T).length = 2 + T.length := by simp [idPrefix]; omega
    rw [zeroBytes_drop, hC, hl] at this
    exact this
  have h4 : copyAt (idPrefix ++ T ++ C ++ zeroBytes 6) (2 + T.length + C.length) R
      = idPrefix ++ T ++ C ++ R := by
    have := copyAt_append (idPrefix ++ T ++ C) (zeroBytes 6) R (by simp [zeroBytes_length, hR])
    have hl : (idPrefix ++ T ++ C).length = 2 + T.length + C.length := by
      simp [idPrefix]; omega
    rw [zeroBytes_drop, hR, hl] at this
    simpa [zeroBytes] using this
  rw [h1, h2, h3, h4]

theorem mint_bytes (count timeInt : Nat) (rng : Nat → Fin 62) :
    (mint count timeInt rng).bytes
      = idPrefix ++ digits62 8 timeInt ++ digits62 4 count ++ getRandSequence rng := by
  have := layout (getTimeSequence timeInt) (getCounterSequence count) (getRandSequence rng)
    (by rw [getTimeSequence_eq, digits62_length]) (by rw [getCounterSequence_eq, digits62_length])
    (getRandSequence_length rng)
  rw [getTimeSequence_eq, getCounterSequence_eq] at this
  exact this

theorem mint_length (count timeInt : Nat) (rng : Nat → Fin 62) :
    (mint count timeInt rng).bytes.length = 20 := by
  simp [mint_bytes, digits62_length, getRandSequence_length, idPrefix]

/-- The order of two minted identifiers is decided by the time fields and, when these
are equal, by the counter fields; the random characters come last and never decide. -/
theorem mint_lt_of_fields (c1 c2 t1 t2 : Nat) (r1 r2 : Nat → Fin 62)
    (hmono : t1 ≤ t2) (hbound : t2 < 62 ^ 8)
    (h : t1 < t2 ∨ c1 % 62 ^ 4 < c2 % 62 ^ 4) :
    strLt (mint c1 t1 r1).String (mint c2 t2 r2).String = true := by
  simp only [Identifier.String, mint_bytes, List.append_assoc]
  rw [strLt_append _ _ _ _ rfl]
  right; refine ⟨rfl, ?_⟩
  rw [strLt_append _ _ _ _ (by simp [digits62_length]), digits62_lt_iff, digits62_eq_iff,
    strLt_append _ _ _ _ (by simp [digits62_length]), digits62_lt_iff,
    Nat.mod_eq_of_lt hbound, Nat.mod_eq_of_lt (lt_of_le_of_lt hmono hbound)]
  rcases Nat.lt_or_ge t1 t2 with ht | ht
  · exact Or.inl ht
  · right
    refine ⟨le_antisymm hmono ht, Or.inl ?_⟩
    rcases h with h | h
    · omega
    · exact h

/-- C1 (amended). Two identifiers returned by `New` one directly after the other, the
counter handed from the first call to the second, with clock readings that do not decrease
and stay below `62 ^ 8`, are in strictly increasing byte-wise order of their `String()`,
whatever the random draws, provided the timestamp has changed between the two calls or
the counter has neither overflowed its 32 bits nor wrapped modulo `62 ^ 4` between
them. -/
theorem New_strictly_increasing (counter t1 t2 : Nat) (r1 r2 : Nat → Fin 62)
    (hmono : t1 ≤ t2) (hbound : t2 < 62 ^ 8)
    (hwrap : t1 < t2 ∨
      ((New counter t1 r1).2 + 1 < 2 ^ 32 ∧ ((New counter t1 r1).2 + 1) % 62 ^ 4 ≠ 0)) :
    strLt (New counter t1 r1).1.String (New (New counter t1 r1).2 t2 r2).1.String = true := by
  show strLt (mint (atomicAddUint32 counter 1) t1 r1).String
    (mint (atomicAddUint32 (atomicAddUint32 counter 1) 1) t2 r2).String = true
  apply mint_lt_of_fields _ _ _ _ _ _ hmono hbound
  rcases hwrap with h | ⟨h1, h2⟩
  · exact Or.inl h
  · right
    have h1' : atomicAddUint32 counter 1 + 1 < 2 ^ 32 := h1
    have h2' : (atomicAddUint32 counter 1 + 1) % 62 ^ 4 ≠ 0 := h2
    generalize atomicAddUint32 counter 1 = c at h1' h2' ⊢
    unfold atomicAddUint32
    rw [Nat.mod_eq_of_lt h1']
    norm_num at h2' ⊢
    omega

theorem New_strictly_increasing_witness :
    (100 : Nat) ≤ 100 ∧
    strLt (New 6 100 (fun _ => 61)).1.String
      (New (New 6 100 (fun _ => 61)).2 100 (fun _ => 0)).1.String = true :=
  ⟨le_refl _, New_strictly_increasing 6 100 100 (fun _ => 61) (fun _ => 0) (le_refl _)
    (by norm_num) (Or.inr (by decide))⟩

/-- The claim as first stated fails where the 32-bit counter overflows: from the counter
state `2 ^ 32 - 2` two calls in the same millisecond get the counter values `2 ^ 32 - 1` and
`0`; the counter has not wrapped modulo `62 ^ 4` (`2 ^ 32 mod 62 ^ 4` is 9829856, not 0), yet
the counter field falls from "fFC3" to "0000" and the later identifier is the smaller. -/
theorem New_overflow_counterexample :
    (New 4294967294 1000 (fun _ => 0)).2 = 4294967295 ∧
    (New (New 4294967294 1000 (fun _ => 0)).2 1000 (fun _ => 0)).2 = 0 ∧
    (4294967295 + 1) % 62 ^ 4 ≠ 0 ∧
    strLt (New 4294967294 1000 (fun _ => 0)).1.String
      (New (New 4294967294 1000 (fun _ => 0)).2 1000 (fun _ => 0)).1.String = false ∧
    strLt (New (New 4294967294 1000 (fun _ => 0)).2 1000 (fun _ => 0)).1.String
      (New 4294967294 1000 (fun _ => 0)).1.String = true := by
  decide

/-! ## Parsing -/

theorem classAlnum_eq_contains (c : Nat) : classAlnum c = alphaNumChars.contains c := by
  rw [Bool.eq_iff_iff]
  simp only [classAlnum, alphaNumChars, List.contains_eq_any_beq, List.any_cons, List.any_nil,
    Bool.or_eq_true, Bool.and_eq_true, decide_eq_true_eq, beq_iff_eq, Bool.or_false]
  omega

theorem matchAlnumToEnd_eq (n : Nat) (l : List Nat) :
    matchAlnumToEnd n l = (l.length == n && l.all classAlnum) := by
  induction n generalizing l with
  | zero => cases l <;> simp [matchAlnumToEnd]
  | succ n ih =>
    cases l with
    | nil => simp [matchAlnumToEnd]
    | cons c cs =>
      rw [matchAlnumToEnd, ih, Bool.eq_iff_iff]
      simp only [List.length_cons, List.all_cons, Bool.and_eq_true, beq_iff_eq]
      constructor
      · rintro ⟨h1, h2, h3⟩; exact ⟨by omega, h1, h3⟩
      · rintro ⟨h1, h2, h3⟩; exact ⟨h2, by omega, h3⟩

theorem validatePattern_eq (b : List Nat) : validatePattern b = isWellFormed b := by
  have hc : (fun c => alphaNumChars.contains c) = classAlnum := by
    funext c; rw [classAlnum_eq_contains]
  unfold validatePattern isWellFormed
  rw [hc]
  split
  · rename_i rest
    rw [matchAlnumToEnd_eq]
    simp [idPrefix]
  · rename_i h
    rcases b with _ | ⟨x, _ | ⟨y, rest⟩⟩
    · simp [idPrefix]
    · simp [idPrefix]
    · have : ¬ (x = 99 ∧ y = 45) := by
        rintro ⟨rfl, rfl⟩
        exact h rest rfl
      simp [idPrefix, this]

theorem copy_full (s : List Nat) (h : s.length = 20) :
    copyAt (zeroBytes identifierLength) 0 s = s := by
  rw [copyAt_zero _ _ (by simp [zeroBytes_length, identifierLength, h]), zeroBytes_drop, h]
  simp [zeroBytes, identifierLength]

theorem FromString_eq (s : List Nat) :
    FromString s =
      if s.length = 20 then
        (if isWellFormed s = true then .ok ⟨s⟩ else .error ⟨.BadFormat⟩)
      else .error ⟨.BadLength⟩ := by
  unfold FromString
  simp only [validateLength, identifierLength, validatePattern_eq]
  by_cases h : s.length = 20
  · by_cases hw : isWellFormed s = true
    · have hc := copy_full s h
      simp only [identifierLength] at hc
      simp [h, hw, hc]
    · simp [h, hw]
  · simp [h]

theorem FromBytes_eq_FromString (b : List Nat) : FromBytes b = FromString b := rfl

theorem isWellFormed_length (s : List Nat) (h : isWellFormed s = true) : s.length = 20 := by
  simp only [isWellFormed, Bool.and_eq_true, beq_iff_eq, List.length_drop] at h
  have h1 := h.1.1
  have h2 := h.1.2
  omega

/-- C10. `FromString` and `FromBytes` succeed exactly on the well-formed inputs (prefix
"c-" and 18 characters of the alphabet); an input whose length is not 20 is refused with
`BadLength`, an input of length 20 that is not well-formed with `BadFormat`; and
`FromBytes b` is `FromString (string b)`. -/
theorem FromString_FromBytes_reject (s : List Nat) :
    ((∃ i, FromString s = .ok i) ↔ isWellFormed s = true) ∧
    ((∃ i, FromBytes s = .ok i) ↔ isWellFormed s = true) ∧
    (s.length ≠ 20 → FromString s = .error ⟨.BadLength⟩ ∧ FromBytes s = .error ⟨.BadLength⟩) ∧
    (s.length = 20 → isWellFormed s = false →
      FromString s = .error ⟨.BadFormat⟩ ∧ FromBytes s = .error ⟨.BadFormat⟩) ∧
    FromBytes s = FromString s := by
  have key : (∃ i, FromString s = .ok i) ↔ isWellFormed s = true := by
    rw [FromString_eq]
    constructor
    · rintro ⟨i, hi⟩
      by_cases h : s.length = 20
      · by_cases hw : isWellFormed s = true
        · exact hw
        · simp [h, hw] at hi
      · simp [h] at hi
    · intro hw
      exact ⟨⟨s⟩, by simp [isWellFormed_length s hw, hw]⟩
  refine ⟨key, ?_, ?_, ?_, FromBytes_eq_FromString s⟩
  · rw [FromBytes_eq_FromString]; exact key
  · intro h
    rw [FromBytes_eq_FromString, FromString_eq]
    simp [h]
  · intro h hw
    rw [FromBytes_eq_FromString, FromString_eq]
    simp [h, hw]

/-- The rejected inputs of `TestInvalidFromString`: "c-" has the wrong length,
"c-0UJqB:QX36SNln7ilE" the wrong format. -/
theorem FromString_FromBytes_reject_witness :
    (FromString [99, 45] = .error ⟨.BadLength⟩ ∧ FromBytes [99, 45] = .error ⟨.BadLength⟩) ∧
    (FromString [99, 45, 48, 85, 74, 113, 66, 58, 81, 88, 51, 54, 83, 78, 108, 110, 55, 105, 108, 69]
        = .error ⟨.BadFormat⟩ ∧
      FromBytes [99, 45, 48, 85, 74, 113, 66, 58, 81, 88, 51, 54, 83, 78, 108, 110, 55, 105, 108, 69]
        = .error ⟨.BadFormat⟩) :=
  ⟨(FromString_FromBytes_reject [99, 45]).2.2.1 (by decide),
   (FromString_FromBytes_reject
      [99, 45, 48, 85, 74, 113, 66, 58, 81, 88, 51, 54, 83, 78, 108, 110, 55, 105, 108, 69]).2.2.2.1
      (by decide) (by decide)⟩

end identifier

namespace accounts
open identifier

/-! ## Go integers -/

theorem wrapInt_wrapInt_add (x y : Int) : wrapInt (wrapInt x + y) = wrapInt (x + y) := by
  unfold wrapInt
  omega

theorem wrapInt_of_inRange (x : Int) (h : inIntRange x) : wrapInt x = x := by
  unfold wrapInt
  unfold inIntRange at h
  omega

theorem wrapInt_zero : wrapInt 0 = 0 := by decide

theorem wrapInt_congr {x y : Int} (h : x = y) : wrapInt x = wrapInt y := by rw [h]

/-! ## The statements -/

theorem DepositFunds_eq : DepositFunds = moveFunds .Credit := rfl

theorem WithdrawFunds_eq : WithdrawFunds = moveFunds .Debit := rfl

theorem txAccountBalanceUpdate_ok {e : UpdateEnv} {s s' : Store} {accountId : Identifier}
    {ty : TransactionType} {amount : Int}
    (h : txAccountBalanceUpdate e s accountId ty amount = .ok s') :
    ∃ row, s.accounts.find? (fun a => a.Id == accountId) = some row ∧
      s'.transactions = s.transactions ∧
      s'.accounts
        = s.accounts.map (setBalance accountId (wrapInt (row.Balance + delta ty amount)) e.now) := by
  unfold txAccountBalanceUpdate at h
  by_cases h1 : e.selectFails = true
  · simp [h1] at h
  · cases hrow : s.accounts.find? (fun a => a.Id == accountId) with
    | none => simp [h1, hrow] at h
    | some row =>
      by_cases h2 : e.updateFails = true
      · simp [h1, hrow, h2] at h
      · refine ⟨row, rfl, ?_⟩
        cases ty <;> simp only [h1, hrow, h2, Bool.false_eq_true, if_false, Except.ok.injEq] at h <;>
          subst h <;> simp [delta, setBalance, Int.sub_eq_add_neg]

theorem execTransactionInsert_ok {s s' : Store} {t : Transaction} {fails : Bool}
    (h : execTransactionInsert s t fails = .ok s') :
    s'.accounts = s.accounts ∧ s'.transactions = s.transactions ++ [t] ∧
      transactionKeysFree s t = true := by
  unfold execTransactionInsert at h
  split at h
  · cases h
  · rename_i hc
    injection h with h
    subst h
    simp at hc
    exact ⟨rfl, rfl, hc.2⟩

/-- What a successful `DepositFunds` or `WithdrawFunds` has done. -/
theorem moveFunds_ok {ty : TransactionType} {e : MoveEnv} {w w' : World} {accountId : Identifier}
    {amount : Int} {description : Text} {t : Transaction}
    (h : moveFunds ty e w accountId amount description = (.ok t, w')) :
    ∃ row, w.db.accounts.find? (fun a => a.Id == accountId) = some row ∧
      t = { Id := (New w.counter e.newId.timeInt e.newId.rng).1,
            IdempotencyKey := generateIdempotencyKey e.key accountId amount ty,
            AccountId := accountId, Amount := amount, TransactionType := ty,
            TransactionDate := e.now, Status := .Complete, Description := some description } ∧
      w'.db.accounts = w.db.accounts.map
        (setBalance accountId (wrapInt (row.Balance + delta ty amount)) e.update.now) ∧
      w'.db.transactions = w.db.transactions ++ [t] ∧
      w'.counter = (New w.counter e.newId.timeInt e.newId.rng).2 := by
  unfold moveFunds at h
  simp only at h
  split at h
  · cases h
  · split at h
    · cases h
    · split at h
      · cases h
      · rename_i tx htx
        obtain ⟨row, hrow, htr, hacc⟩ := txAccountBalanceUpdate_ok htx
        split at h
        · cases h
        · rename_i tx2 htx2
          obtain ⟨h1, h2, -⟩ := execTransactionInsert_ok htx2
          split at h
          · cases h
          · injection h with ht hw
            injection ht with ht
            subst ht hw
            exact ⟨row, hrow, rfl, by simp [h1, hacc], by simp [h2, htr], rfl⟩

/-! ## Stored balances -/

theorem setBalance_Id (x : Identifier) (b : Int) (now : Time) (a : Account) :
    (setBalance x b now a).Id = a.Id := by
  unfold setBalance; split <;> rfl

theorem find_map_setBalance (l : List Account) (x y : Identifier) (b : Int) (now : Time) :
    ((l.map (setBalance x b now)).find? (fun a => a.Id == y)).map (fun a => a.Balance)
      = if y = x then (l.find? (fun a => a.Id == y)).map (fun _ => b)
        else (l.find? (fun a => a.Id == y)).map (fun a => a.Balance) := by
  induction l with
  | nil => simp
  | cons a l ih =>
    simp only [List.map_cons, List.find?_cons, setBalance_Id]
    by_cases hy : (a.Id == y) = true
    · simp only [hy, Option.map_some']
      have hay : a.Id = y := by simpa using hy
      by_cases hx : y = x
      · simp [hx, setBalance, hay ▸ hx]
      · have : ¬ a.Id = x := hay ▸ hx
        simp [hx, setBalance, this]
    · simp only [hy]
      exact ih

theorem balanceOf_update {s s' : Store} {x : Identifier} {b : Int} {now : Time}
    (h : s'.accounts = s.accounts.map (setBalance x b now)) (y : Identifier) :
    balanceOf s' y = if y = x then (balanceOf s y).map (fun _ => b) else balanceOf s y := by
  unfold balanceOf
  rw [h, find_map_setBalance]
  split
  · rw [Option.map_map]; rfl
  · rfl

/-- The stored balances after a successful `DepositFunds` or `WithdrawFunds`: the balance
of the account is the Go sum of the old balance and the signed amount, which is their sum
when that is a value of a Go `int`; the other balances are as before. -/
theorem moveFunds_balance {ty : TransactionType} {e : MoveEnv} {w w' : World} {a : Identifier}
    {amount : Int} {d : Text} {t : Transaction}
    (h : moveFunds ty e w a amount d = (.ok t, w')) :
    (∃ b, balanceOf w.db a = some b ∧
      balanceOf w'.db a = some (wrapInt (b + delta ty amount)) ∧
      (inIntRange (b + delta ty amount) → balanceOf w'.db a = some (b + delta ty amount))) ∧
    (∀ other, other ≠ a → balanceOf w'.db other = balanceOf w.db other) := by
  obtain ⟨row, hrow, -, hacc, -, -⟩ := moveFunds_ok h
  have hnew : balanceOf w'.db a = some (wrapInt (row.Balance + delta ty amount)) := by
    rw [balanceOf_update hacc]
    simp [balanceOf, hrow]
  constructor
  · refine ⟨row.Balance, by simp [balanceOf, hrow], hnew, ?_⟩
    intro hr
    rw [hnew, wrapInt_of_inRange _ hr]
  · intro other ho
    rw [balanceOf_update hacc]
    simp [ho]

/-- C4 (amended). A successful `DepositFunds` appends exactly one row to the transactions,
the transaction it returns: a complete credit of the account with the given amount and
description; the stored balance of the account is the old balance plus the amount as a Go
`int`, that is, it has grown by exactly the amount whenever the sum stays in the 64-bit
range and has wrapped around otherwise; the balance of every other account and the earlier
transaction rows are as before. -/
theorem DepositFunds_success (e : MoveEnv) (w w' : World) (a : Identifier) (amount : Int)
    (description : Text) (t : Transaction)
    (h : DepositFunds e w a amount description = (.ok t, w')) :
    w'.db.transactions = w.db.transactions ++ [t] ∧
    t.AccountId = a ∧ t.TransactionType = .Credit ∧ t.Amount = amount ∧
    t.Description = some description ∧ t.Status = .Complete ∧
    (∃ b, balanceOf w.db a = some b ∧ balanceOf w'.db a = some (wrapInt (b + amount)) ∧
      (inIntRange (b + amount) → balanceOf w'.db a = some (b + amount))) ∧
    (∀ other, other ≠ a → balanceOf w'.db other = balanceOf w.db other) ∧
    w'.db.accounts.map (fun r => r.Id) = w.db.accounts.map (fun r => r.Id) := by
  rw [DepositFunds_eq] at h
  obtain ⟨row, hrow, ht, hacc, htr, -⟩ := moveFunds_ok h
  obtain ⟨hbal, hother⟩ := moveFunds_balance h
  refine ⟨htr, by rw [ht], by rw [ht], by rw [ht], by rw [ht], by rw [ht], hbal, hother, ?_⟩
  rw [hacc, List.map_map]
  congr 1
  funext r
  simp [setBalance_Id]

/-! ## The ledger invariant -/

theorem ledgerSum_congr {s s' : Store} (h : s'.transactions = s.transactions) (x : Identifier) :
    ledgerSum s' x = ledgerSum s x := by
  simp [ledgerSum, completeOf, h]

theorem ledgerSum_insert {s s' : Store} {t : Transaction}
    (h : s'.transactions = s.transactions ++ [t]) (hc : t.Status = .Complete) (x : Identifier) :
    ledgerSum s' x = ledgerSum s x + (if x = t.AccountId then signedAmount t else 0) := by
  simp only [ledgerSum, completeOf, h, List.filter_append, List.map_append, List.sum_append]
  congr 1
  by_cases hx : x = t.AccountId
  · simp [List.filter, hx, hc]
  · have hb : (t.AccountId == x) = false := by
      simpa using fun h : t.AccountId = x => hx h.symm
    simp [List.filter, hx, hb]

theorem find_some_mem {l : List Account} {x : Identifier} {row : Account}
    (h : l.find? (fun a => a.Id == x) = some row) : row ∈ l ∧ row.Id = x := by
  refine ⟨List.mem_of_find?_eq_some h, ?_⟩
  have := List.find?_some h
  simpa using this

theorem Balanced_update {s u : Store} {d : Identifier → Int} {x : Identifier} {row : Account}
    {c : Int} {now : Time} (hb : Balanced s d)
    (hrow : s.accounts.find? (fun a => a.Id == x) = some row)
    (hacc : u.accounts = s.accounts.map (setBalance x (wrapInt (row.Balance + c)) now))
    (htr : u.transactions = s.transactions) :
    Balanced u (fun i => d i + (if i = x then c else 0)) := by
  intro a' ha'
  rw [hacc, List.mem_map] at ha'
  obtain ⟨a, ha, rfl⟩ := ha'
  obtain ⟨hmem, hid⟩ := find_some_mem hrow
  rw [setBalance_Id, ledgerSum_congr htr]
  by_cases hx : a.Id = x
  · have h1 := hb row hmem
    rw [hid] at h1
    simp only [setBalance, hx, beq_self_eq_true, if_true, h1, wrapInt_wrapInt_add]
    exact wrapInt_congr (by omega)
  · simp only [setBalance, hx, beq_iff_eq, if_false, hb a ha]
    exact wrapInt_congr (by omega)

theorem Balanced_insert {s u : Store} {d : Identifier → Int} {t : Transaction}
    (hb : Balanced s d) (hacc : u.accounts = s.accounts)
    (htr : u.transactions = s.transactions ++ [t]) (hc : t.Status = .Complete) :
    Balanced u (fun i => d i - (if i = t.AccountId then signedAmount t else 0)) := by
  intro a ha
  rw [hacc] at ha
  rw [ledgerSum_insert htr hc, hb a ha]
  beta_reduce
  exact wrapInt_congr (by omega)

theorem Referential_step {s s' : Store}
    (hr : Referential s) (hacc : s'.accounts.map (fun r => r.Id) = s.accounts.map (fun r => r.Id))
    (htr : ∀ t ∈ s'.transactions, t ∈ s.transactions ∨ t.AccountId ∈ s.accounts.map (fun r => r.Id)) :
    Referential s' := by
  intro t ht
  have hin : t.AccountId ∈ s.accounts.map (fun r => r.Id) := by
    rcases htr t ht with h | h
    · obtain ⟨a, ha, hid⟩ := hr t h
      exact List.mem_map.mpr ⟨a, ha, hid⟩
    · exact h
  rw [← hacc, List.mem_map] at hin
  exact hin

theorem map_setBalance_ids (l : List Account) (x : Identifier) (b : Int) (now : Time) :
    (l.map (setBalance x b now)).map (fun r => r.Id) = l.map (fun r => r.Id) := by
  rw [List.map_map]
  congr 1
  funext r
  simp [setBalance_Id]


/-- What a successful `AccountTransfer` has done; `s1` is the view of the transaction
after the source account was debited. -/
theorem AccountTransfer_ok {e : TransferEnv} {w w' : World} {src dst : Identifier}
    {amount : Int} {description : Text} {resp : AccountTransferResp}
    (h : AccountTransfer e w src dst amount description = (.ok resp, w')) :
    ∃ (row1 row2 : Account) (s1 : Store),
      w.db.accounts.find? (fun a => a.Id == src) = some row1 ∧
      s1.accounts = w.db.accounts.map
        (setBalance src (wrapInt (row1.Balance + delta .Debit amount)) e.sourceUpdate.now) ∧
      s1.transactions = w.db.transactions ∧
      s1.accounts.find? (fun a => a.Id == dst) = some row2 ∧
      w'.db.accounts = s1.accounts.map
        (setBalance dst (wrapInt (row2.Balance + delta .Credit amount)) e.destUpdate.now) ∧
      resp.SourceTransaction =
        { Id := (New w.counter e.sourceId.timeInt e.sourceId.rng).1,
          IdempotencyKey := generateIdempotencyKey e.sourceKey src amount .Debit,
          AccountId := src, Amount := amount, TransactionType := .Debit,
          TransactionDate := e.sourceNow, Status := .Complete,
          Description := some description } ∧
      resp.DestinationTransaction =
        { Id := (New (New w.counter e.sourceId.timeInt e.sourceId.rng).2
                  e.destId.timeInt e.destId.rng).1,
          IdempotencyKey := generateIdempotencyKey e.destKey dst amount .Credit,
          AccountId := dst, Amount := amount, TransactionType := .Credit,
          TransactionDate := e.destNow, Status := .Complete,
          Description := some description } ∧
      w'.db.transactions
        = w.db.transactions ++ [resp.SourceTransaction, resp.DestinationTransaction] := by
  unfold AccountTransfer at h
  simp only [New] at h
  split at h
  · cases h
  · split at h
    · cases h
    · split at h
      · cases h
      · rename_i s1 hs1
        obtain ⟨row1, hrow1, htr1, hacc1⟩ := txAccountBalanceUpdate_ok hs1
        split at h
        · cases h
        · rename_i s2 hs2
          obtain ⟨row2, hrow2, htr2, hacc2⟩ := txAccountBalanceUpdate_ok hs2
          split at h
          · cases h
          · rename_i s3 hs3
            obtain ⟨h3a, h3t, -⟩ := execTransactionInsert_ok hs3
            split at h
            · cases h
            · rename_i s4 hs4
              obtain ⟨h4a, h4t, -⟩ := execTransactionInsert_ok hs4
              split at h
              · cases h
              · injection h with hr hw
                injection hr with hr
                subst hr hw
                refine ⟨row1, row2, s1, hrow1, hacc1, htr1, hrow2, ?_, rfl, rfl, ?_⟩
                · simp [h4a, h3a, hacc2]
                · simp [h4t, h3t, htr2, htr1]


/-! ## Failed calls -/

theorem moveFunds_error_db {ty : TransactionType} {e : MoveEnv} {w w' : World}
    {accountId : Identifier} {amount : Int} {description : Text} {err : Error}
    (h : moveFunds ty e w accountId amount description = (.error err, w')) : w'.db = w.db := by
  unfold moveFunds at h
  simp only at h
  repeat' split at h
  all_goals first
    | (cases h; done)
    | (cases h; rfl)

theorem AccountTransfer_error_db {e : TransferEnv} {w w' : World} {src dst : Identifier}
    {amount : Int} {description : Text} {err : Error}
    (h : AccountTransfer e w src dst amount description = (.error err, w')) : w'.db = w.db := by
  unfold AccountTransfer at h
  simp only [New] at h
  repeat' split at h
  all_goals first
    | (cases h; done)
    | (cases h; rfl)

theorem AccountTransfer_missing_dest {e : TransferEnv} {w : World} {src dst : Identifier}
    {amount : Int} {description : Text} (hd : ∀ a ∈ w.db.accounts, a.Id ≠ dst) :
    ∃ err, (AccountTransfer e w src dst amount description).1 = .error err := by
  cases hres : (AccountTransfer e w src dst amount description).1 with
  | error err => exact ⟨err, rfl⟩
  | ok resp =>
    exfalso
    have h : AccountTransfer e w src dst amount description
        = (.ok resp, (AccountTransfer e w src dst amount description).2) := by
      rw [← hres]
    obtain ⟨row1, row2, s1, -, hacc1, -, hrow2, -⟩ := AccountTransfer_ok h
    obtain ⟨hmem, hid⟩ := find_some_mem hrow2
    rw [hacc1, List.mem_map] at hmem
    obtain ⟨a, ha, rfl⟩ := hmem
    rw [setBalance_Id] at hid
    exact hd a ha hid

/-- C5. `DepositFunds`, `WithdrawFunds` and `AccountTransfer` are all-or-nothing: when the
call returns an error, whatever the statement that failed, the database is the one from
before the call; and a transfer to an account that does not exist returns an error and
leaves the database, so the balance of the source account, as it was. -/
theorem ledger_calls_all_or_nothing :
    (∀ (e : MoveEnv) (w w' : World) (a : Identifier) (amount : Int) (d : Text) (err : Error),
      DepositFunds e w a amount d = (.error err, w') → w'.db = w.db) ∧
    (∀ (e : MoveEnv) (w w' : World) (a : Identifier) (amount : Int) (d : Text) (err : Error),
      WithdrawFunds e w a amount d = (.error err, w') → w'.db = w.db) ∧
    (∀ (e : TransferEnv) (w w' : World) (src dst : Identifier) (amount : Int) (d : Text)
      (err : Error), AccountTransfer e w src dst amount d = (.error err, w') → w'.db = w.db) ∧
    (∀ (e : TransferEnv) (w : World) (src dst : Identifier) (amount : Int) (d : Text),
      (∀ a ∈ w.db.accounts, a.Id ≠ dst) →
      ∃ err w', AccountTransfer e w src dst amount d = (.error err, w') ∧ w'.db = w.db ∧
        balanceOf w'.db src = balanceOf w.db src) := by
  refine ⟨?_, ?_, ?_, ?_⟩
  · intro e w w' a amount d err h
    rw [DepositFunds_eq] at h
    exact moveFunds_error_db h
  · intro e w w' a amount d err h
    rw [WithdrawFunds_eq] at h
    exact moveFunds_error_db h
  · intro e w w' src dst amount d err h
    exact AccountTransfer_error_db h
  · intro e w src dst amount d hd
    obtain ⟨err, herr⟩ := @AccountTransfer_missing_dest e w src dst amount d hd
    have h : AccountTransfer e w src dst amount d
        = (.error err, (AccountTransfer e w src dst amount d).2) := by
      rw [← herr]
    have hdb := AccountTransfer_error_db h
    exact ⟨err, _, h, hdb, by rw [hdb]⟩


/-! ## Reachable states -/

/-- The invariant of the ledger. -/
theorem Inv_init : Balanced World.init.db (fun _ => 0) ∧ Referential World.init.db := by
  constructor
  · intro a ha; simp [World.init] at ha
  · intro t ht; simp [World.init] at ht

theorem ledgerSum_eq_zero_of_fresh {s : Store} {x : Identifier} (hr : Referential s)
    (hx : ∀ a ∈ s.accounts, a.Id ≠ x) : ledgerSum s x = 0 := by
  have : completeOf s x = [] := by
    unfold completeOf
    rw [List.filter_eq_nil_iff]
    intro t ht
    obtain ⟨a, ha, hid⟩ := hr t ht
    have := hx a ha
    rw [hid] at this
    simp [this]
  simp [ledgerSum, this]

theorem CreateAccount_error_db {e : CreateEnv} {w w' : World} {userId : Identifier}
    {name : Text} {err : Error}
    (h : CreateAccount e w userId name = (.error err, w')) : w'.db = w.db := by
  unfold CreateAccount at h
  simp only [New] at h
  split at h
  · cases h; rfl
  · cases h

theorem CreateAccount_ok {e : CreateEnv} {w w' : World} {userId : Identifier}
    {name : Text} {account : Account}
    (h : CreateAccount e w userId name = (.ok account, w')) :
    w'.db.accounts = w.db.accounts ++ [account] ∧ w'.db.transactions = w.db.transactions ∧
      account.Balance = 0 ∧ (∀ a ∈ w.db.accounts, a.Id ≠ account.Id) ∧
      account.Id = (New w.counter e.newId.timeInt e.newId.rng).1 := by
  unfold CreateAccount at h
  simp only [New] at h
  split at h
  · cases h
  · rename_i db heq
    injection h with h1 h2
    injection h1 with h1
    subst h1 h2
    unfold execAccountInsert at heq
    split at heq
    · cases heq
    · rename_i hc
      injection heq with heq
      subst heq
      simp only [Bool.or_eq_true, Bool.not_eq_true', not_or, Bool.not_eq_false] at hc
      have hfree := hc.2
      simp only [accountKeyFree, List.all_eq_true, bne_iff_ne, ne_eq] at hfree
      exact ⟨rfl, rfl, rfl, hfree, rfl⟩

theorem CreateAccount_inv (e : CreateEnv) (w : World) (userId : Identifier) (name : Text)
    (hb : Balanced w.db (fun _ => 0)) (hr : Referential w.db) :
    Balanced (CreateAccount e w userId name).2.db (fun _ => 0) ∧
      Referential (CreateAccount e w userId name).2.db := by
  cases hres : (CreateAccount e w userId name).1 with
  | error err =>
    have h : CreateAccount e w userId name = (.error err, (CreateAccount e w userId name).2) := by
      rw [← hres]
    rw [CreateAccount_error_db h]
    exact ⟨hb, hr⟩
  | ok account =>
    have h : CreateAccount e w userId name = (.ok account, (CreateAccount e w userId name).2) := by
      rw [← hres]
    obtain ⟨hacc, htr, hzero, hfree, -⟩ := CreateAccount_ok h
    generalize (CreateAccount e w userId name).2 = w' at hacc htr
    constructor
    · intro a ha
      rw [hacc, List.mem_append, List.mem_singleton] at ha
      rw [ledgerSum_congr htr]
      rcases ha with ha | rfl
      · exact hb a ha
      · rw [ledgerSum_eq_zero_of_fresh hr hfree, hzero]
        exact wrapInt_zero.symm
    · intro t ht
      rw [htr] at ht
      obtain ⟨a, ha, hid⟩ := hr t ht
      exact ⟨a, by rw [hacc]; exact List.mem_append_left _ ha, hid⟩

theorem moveFunds_inv (ty : TransactionType) (e : MoveEnv) (w : World) (x : Identifier)
    (amount : Int) (d : Text)
    (hb : Balanced w.db (fun _ => 0)) (hr : Referential w.db) :
    Balanced (moveFunds ty e w x amount d).2.db (fun _ => 0) ∧
      Referential (moveFunds ty e w x amount d).2.db := by
  cases hres : (moveFunds ty e w x amount d).1 with
  | error err =>
    have h : moveFunds ty e w x amount d = (.error err, (moveFunds ty e w x amount d).2) := by
      rw [← hres]
    rw [moveFunds_error_db h]
    exact ⟨hb, hr⟩
  | ok t =>
    have h : moveFunds ty e w x amount d = (.ok t, (moveFunds ty e w x amount d).2) := by
      rw [← hres]
    obtain ⟨row, hrow, ht, hacc, htr, -⟩ := moveFunds_ok h
    generalize (moveFunds ty e w x amount d).2 = w' at hacc htr
    have hs : signedAmount t = delta ty amount := by
      rw [ht]; cases ty <;> rfl
    have hta : t.AccountId = x := by rw [ht]
    have htc : t.Status = .Complete := by rw [ht]
    constructor
    · -- the update, then the insert
      let s1 : Store := { accounts := w'.db.accounts, transactions := w.db.transactions }
      have h1 : Balanced s1 (fun i => 0 + (if i = x then delta ty amount else 0)) :=
        Balanced_update hb hrow hacc rfl
      have h2 := Balanced_insert (u := w'.db) h1 rfl htr htc
      intro a ha
      have := h2 a ha
      rw [this, hs, hta]
      exact wrapInt_congr (by simp)
    · refine Referential_step hr (by rw [hacc, map_setBalance_ids]) ?_
      intro t' ht'
      rw [htr, List.mem_append, List.mem_singleton] at ht'
      rcases ht' with h' | rfl
      · exact Or.inl h'
      · right
        obtain ⟨hmem, hid⟩ := find_some_mem hrow
        rw [hta]
        exact List.mem_map.mpr ⟨row, hmem, hid⟩


theorem AccountTransfer_inv (e : TransferEnv) (w : World) (src dst : Identifier)
    (amount : Int) (d : Text)
    (hb : Balanced w.db (fun _ => 0)) (hr : Referential w.db) :
    Balanced (AccountTransfer e w src dst amount d).2.db (fun _ => 0) ∧
      Referential (AccountTransfer e w src dst amount d).2.db := by
  cases hres : (AccountTransfer e w src dst amount d).1 with
  | error err =>
    have h : AccountTransfer e w src dst amount d
        = (.error err, (AccountTransfer e w src dst amount d).2) := by
      rw [← hres]
    rw [AccountTransfer_error_db h]
    exact ⟨hb, hr⟩
  | ok resp =>
    have h : AccountTransfer e w src dst amount d
        = (.ok resp, (AccountTransfer e w src dst amount d).2) := by
      rw [← hres]
    obtain ⟨row1, row2, s1, hrow1, hacc1, htr1, hrow2, hacc2, hst, hdt, htr⟩ :=
      AccountTransfer_ok h
    generalize (AccountTransfer e w src dst amount d).2 = w' at hacc2 htr
    have hs1 : signedAmount resp.SourceTransaction = -amount := by rw [hst]; rfl
    have hs2 : signedAmount resp.DestinationTransaction = amount := by rw [hdt]; rfl
    have ha1 : resp.SourceTransaction.AccountId = src := by rw [hst]
    have ha2 : resp.DestinationTransaction.AccountId = dst := by rw [hdt]
    have hc1 : resp.SourceTransaction.Status = .Complete := by rw [hst]
    have hc2 : resp.DestinationTransaction.Status = .Complete := by rw [hdt]
    constructor
    · have h1 := Balanced_update hb hrow1 hacc1 htr1
      let s2 : Store := { accounts := w'.db.accounts, transactions := s1.transactions }
      have h2 := Balanced_update (u := s2) h1 hrow2 hacc2 rfl
      let s3 : Store :=
        { accounts := w'.db.accounts, transactions := s1.transactions ++ [resp.SourceTransaction] }
      have h3 := Balanced_insert (u := s3) h2 rfl rfl hc1
      have htr4 : w'.db.transactions = s3.transactions ++ [resp.DestinationTransaction] := by
        show w'.db.transactions
          = (s1.transactions ++ [resp.SourceTransaction]) ++ [resp.DestinationTransaction]
        rw [htr, htr1]; simp
      have h4 := Balanced_insert (u := w'.db) h3 rfl htr4 hc2
      intro a ha
      have := h4 a ha
      rw [this, hs1, hs2, ha1, ha2]
      apply wrapInt_congr
      simp only [delta]
      split <;> split <;> omega
    · refine Referential_step hr (by rw [hacc2, map_setBalance_ids, hacc1, map_setBalance_ids]) ?_
      intro t' ht'
      rw [htr] at ht'
      simp only [List.mem_append, List.mem_cons, List.mem_singleton, List.not_mem_nil,
        or_false] at ht'
      rcases ht' with h' | rfl | rfl
      · exact Or.inl h'
      · right
        obtain ⟨hmem, hid⟩ := find_some_mem hrow1
        rw [ha1]
        exact List.mem_map.mpr ⟨row1, hmem, hid⟩
      · right
        obtain ⟨hmem, hid⟩ := find_some_mem hrow2
        rw [ha2, ← map_setBalance_ids w.db.accounts src
          (wrapInt (row1.Balance + delta .Debit amount)) e.sourceUpdate.now, ← hacc1]
        exact List.mem_map.mpr ⟨row2, hmem, hid⟩

theorem Reachable_inv {w : World} (h : Reachable w) :
    Balanced w.db (fun _ => 0) ∧ Referential w.db := by
  induction h with
  | init => exact Inv_init
  | restart w _ ih => exact ih
  | createAccount w e userId name _ ih => exact CreateAccount_inv e w userId name ih.1 ih.2
  | depositFunds w e a amount d _ ih =>
    rw [DepositFunds_eq]; exact moveFunds_inv _ e w a amount d ih.1 ih.2
  | withdrawFunds w e a amount d _ ih =>
    rw [WithdrawFunds_eq]; exact moveFunds_inv _ e w a amount d ih.1 ih.2
  | accountTransfer w e src dst amount d _ ih => exact AccountTransfer_inv e w src dst amount d ih.1 ih.2

/-- C2 (amended). In every state reached from the empty database by calls of
`CreateAccount`, `DepositFunds`, `WithdrawFunds` and `AccountTransfer`, successful or not,
the stored balance of every account is the signed sum of the complete transactions that
reference it, taken as a Go `int`: the two agree modulo `2 ^ 64`, and they are equal
whenever the signed sum is in the 64-bit range. -/
theorem balance_eq_ledgerSum (w : World) (h : Reachable w) :
    ∀ a ∈ w.db.accounts,
      a.Balance = wrapInt (ledgerSum w.db a.Id) ∧
      (inIntRange (ledgerSum w.db a.Id) → a.Balance = ledgerSum w.db a.Id) := by
  intro a ha
  have hb : a.Balance = wrapInt (ledgerSum w.db a.Id) := by
    have := (Reachable_inv h).1 a ha
    simpa using this
  exact ⟨hb, fun hr => by rw [hb, wrapInt_of_inRange _ hr]⟩

end accounts

namespace identifier

theorem mint_ne_of_counter (c1 c2 t1 t2 : Nat) (r1 r2 : Nat → Fin 62)
    (h : c1 % 62 ^ 4 ≠ c2 % 62 ^ 4) : mint c1 t1 r1 ≠ mint c2 t2 r2 := by
  intro heq
  have hb : (mint c1 t1 r1).bytes = (mint c2 t2 r2).bytes := by rw [heq]
  rw [mint_bytes, mint_bytes] at hb
  have h1 := List.append_inj' hb (by simp [getRandSequence_length])
  have h2 := List.append_inj' h1.1 (by simp [digits62_length])
  exact h ((digits62_eq_iff 4 c1 c2).mp h2.2)

theorem atomicAdd_field_ne (c : Nat) :
    atomicAddUint32 c 1 % 62 ^ 4 ≠ atomicAddUint32 (atomicAddUint32 c 1) 1 % 62 ^ 4 := by
  unfold atomicAddUint32
  norm_num
  omega

end identifier

namespace accounts
open identifier

/-- C3 (amended). A successful `AccountTransfer` appends exactly two rows to the
transactions, the two it returns: a complete debit of the source and a complete credit of
the destination, both with the given amount and description, with distinct ids; when source
and destination are different accounts the stored balance of the source is the old one
minus the amount and that of the destination the old one plus the amount, as Go integers:
exactly so whenever the result stays in the 64-bit range, wrapped around otherwise; when
they are the same account its balance is the old one. -/
theorem AccountTransfer_success (e : TransferEnv) (w w' : World) (src dst : Identifier)
    (amount : Int) (description : Text) (resp : AccountTransferResp)
    (h : AccountTransfer e w src dst amount description = (.ok resp, w')) :
    w'.db.transactions
      = w.db.transactions ++ [resp.SourceTransaction, resp.DestinationTransaction] ∧
    (resp.SourceTransaction.AccountId = src ∧ resp.SourceTransaction.TransactionType = .Debit ∧
      resp.SourceTransaction.Amount = amount ∧
      resp.SourceTransaction.Description = some description ∧
      resp.SourceTransaction.Status = .Complete) ∧
    (resp.DestinationTransaction.AccountId = dst ∧
      resp.DestinationTransaction.TransactionType = .Credit ∧
      resp.DestinationTransaction.Amount = amount ∧
      resp.DestinationTransaction.Description = some description ∧
      resp.DestinationTransaction.Status = .Complete) ∧
    resp.SourceTransaction.Id ≠ resp.DestinationTransaction.Id ∧
    (src ≠ dst → ∃ bs bd, balanceOf w.db src = some bs ∧ balanceOf w.db dst = some bd ∧
      balanceOf w'.db src = some (wrapInt (bs - amount)) ∧
      balanceOf w'.db dst = some (wrapInt (bd + amount)) ∧
      (inIntRange (bs - amount) → balanceOf w'.db src = some (bs - amount)) ∧
      (inIntRange (bd + amount) → balanceOf w'.db dst = some (bd + amount))) ∧
    (src = dst → ∃ b, balanceOf w.db src = some b ∧ balanceOf w'.db src = some (wrapInt b) ∧
      (inIntRange b → balanceOf w'.db src = some b)) := by
  obtain ⟨row1, row2, s1, hrow1, hacc1, htr1, hrow2, hacc2, hst, hdt, htr⟩ :=
    AccountTransfer_ok h
  have hb1 : balanceOf w.db src = some row1.Balance := by simp [balanceOf, hrow1]
  have hb2 : balanceOf s1 dst = some row2.Balance := by simp [balanceOf, hrow2]
  have hs1 := balanceOf_update hacc1
  have hs2 := balanceOf_update hacc2
  refine ⟨htr, ?_, ?_, ?_, ?_, ?_⟩
  · rw [hst]; exact ⟨rfl, rfl, rfl, rfl, rfl⟩
  · rw [hdt]; exact ⟨rfl, rfl, rfl, rfl, rfl⟩
  · rw [hst, hdt]
    exact mint_ne_of_counter _ _ _ _ _ _ (atomicAdd_field_ne w.counter)
  · intro hne
    have hne' : ¬ dst = src := fun h => hne h.symm
    have hd : balanceOf w.db dst = some row2.Balance := by
      rw [← hb2, hs1 dst]; simp [hne']
    have hsrc : balanceOf w'.db src = some (wrapInt (row1.Balance - amount)) := by
      rw [hs2 src, hs1 src]
      simp [hne, hb1, delta, Int.sub_eq_add_neg]
    have hdst : balanceOf w'.db dst = some (wrapInt (row2.Balance + amount)) := by
      rw [hs2 dst]
      simp [hb2, delta]
    refine ⟨row1.Balance, row2.Balance, hb1, hd, hsrc, hdst, ?_, ?_⟩
    · intro hr; rw [hsrc, wrapInt_of_inRange _ hr]
    · intro hr; rw [hdst, wrapInt_of_inRange _ hr]
  · intro heq
    subst heq
    have hnew : balanceOf w'.db src = some (wrapInt row1.Balance) := by
      rw [hs2 src, hb2]
      rw [hs1 src, hb1] at hb2
      simp only [if_true, Option.map_some', Option.some.injEq] at hb2
      simp only [if_true, Option.map_some', ← hb2, delta, wrapInt_wrapInt_add]
      exact congrArg some (wrapInt_congr (by omega))
    exact ⟨row1.Balance, hb1, hnew, fun hr => by rw [hnew, wrapInt_of_inRange _ hr]⟩

theorem AccountTransfer_success_witness :
    AccountTransfer (demoTransfer 5 1002) demoW2 demoA demoB 50 [] = (.ok demoResp, demoW3) ∧
      demoA ≠ demoB ∧
      ∃ bs bd, balanceOf demoW2.db demoA = some bs ∧ balanceOf demoW2.db demoB = some bd ∧
        balanceOf demoW3.db demoA = some (wrapInt (bs - 50)) ∧
        balanceOf demoW3.db demoB = some (wrapInt (bd + 50)) ∧
        (inIntRange (bs - 50) → balanceOf demoW3.db demoA = some (bs - 50)) ∧
        (inIntRange (bd + 50) → balanceOf demoW3.db demoB = some (bd + 50)) :=
  ⟨rfl, by decide,
   (AccountTransfer_success (demoTransfer 5 1002) demoW2 demoW3 demoA demoB 50 [] demoResp
      rfl).2.2.2.2.1 (by decide)⟩

/-- The claim as first stated fails in two places. A transfer from an account to itself
succeeds, and the balance, 100 before, is 100 and not `100 - 50` afterwards. And a transfer
of 1 to an account that holds `2 ^ 63 - 1` succeeds and leaves it `-2 ^ 63`, not `2 ^ 63`. -/
theorem AccountTransfer_self_counterexample :
    ((AccountTransfer (demoTransfer 5 1002) demoW2 demoA demoA 50 []).1.isOk = true ∧
      balanceOf demoW2.db demoA = some 100 ∧
      balanceOf (AccountTransfer (demoTransfer 5 1002) demoW2 demoA demoA 50 []).2.db demoA
        ≠ some (100 - 50)) ∧
    ((AccountTransfer (demoTransfer 5 1002) demoO1 demoB demoA 1 []).1.isOk = true ∧
      demoB ≠ demoA ∧
      balanceOf demoO1.db demoA = some demoMax ∧
      balanceOf (AccountTransfer (demoTransfer 5 1002) demoO1 demoB demoA 1 []).2.db demoA
        = some (-9223372036854775808) ∧
      balanceOf (AccountTransfer (demoTransfer 5 1002) demoO1 demoB demoA 1 []).2.db demoA
        ≠ some (demoMax + 1)) := by
  decide

theorem DepositFunds_success_witness :
    DepositFunds (demoMove 1 1001) demoW1 demoA 100 [] = (.ok demoT1, demoW2) ∧
      demoW2.db.transactions = demoW1.db.transactions ++ [demoT1] ∧
      (∃ b, balanceOf demoW1.db demoA = some b ∧
        balanceOf demoW2.db demoA = some (wrapInt (b + 100)) ∧
        (inIntRange (b + 100) → balanceOf demoW2.db demoA = some (b + 100))) ∧
      balanceOf demoW2.db demoA = some 100 :=
  ⟨rfl, (DepositFunds_success (demoMove 1 1001) demoW1 demoW2 demoA 100 [] demoT1 rfl).1,
    (DepositFunds_success (demoMove 1 1001) demoW1 demoW2 demoA 100 [] demoT1 rfl).2.2.2.2.2.2.1,
    by decide⟩

/-- The claim as first stated fails at the end of the range of a Go `int`: a deposit of
`2 ^ 63 - 1` on an account that holds `2 ^ 63 - 1` succeeds and leaves the balance `-2`,
not `2 ^ 64 - 2`. -/
theorem DepositFunds_overflow_counterexample :
    DepositFunds (demoMove 2 1002) demoO1 demoA demoMax [] = (.ok demoT4, demoO2) ∧
    balanceOf demoO1.db demoA = some demoMax ∧
    balanceOf demoO2.db demoA = some (-2) ∧
    balanceOf demoO2.db demoA ≠ some (demoMax + demoMax) :=
  ⟨rfl, by decide, by decide, by decide⟩

theorem balance_eq_ledgerSum_witness :
    Reachable demoW2 ∧
    ∀ a ∈ demoW2.db.accounts,
      a.Balance = wrapInt (ledgerSum demoW2.db a.Id) ∧
      (inIntRange (ledgerSum demoW2.db a.Id) → a.Balance = ledgerSum demoW2.db a.Id) :=
  ⟨Reachable.depositFunds _ _ _ _ _
    (Reachable.createAccount _ _ _ _ (Reachable.createAccount _ _ _ _ Reachable.init)),
   balance_eq_ledgerSum demoW2
    (Reachable.depositFunds _ _ _ _ _
      (Reachable.createAccount _ _ _ _ (Reachable.createAccount _ _ _ _ Reachable.init)))⟩

/-- The claim as first stated fails at the end of the range of a Go `int`: after two
deposits of `2 ^ 63 - 1` on a new account, a reachable state, the stored balance is `-2`
while the signed sum of its complete transactions is `2 ^ 64 - 2`. -/
theorem balance_ne_ledgerSum_counterexample :
    Reachable demoO2 ∧
    balanceOf demoO2.db demoA = some (-2) ∧
    ledgerSum demoO2.db demoA = 18446744073709551614 ∧
    ¬ ∀ a ∈ demoO2.db.accounts, a.Balance = ledgerSum demoO2.db a.Id := by
  refine ⟨Reachable.depositFunds _ _ _ _ _ (Reachable.depositFunds _ _ _ _ _
    (Reachable.createAccount _ _ _ _ (Reachable.createAccount _ _ _ _ Reachable.init))),
    by decide, by decide, by decide⟩

/-- A transfer of 50 from the account of `demoW2` to an account that does not exist
returns an error and leaves the balance of 100 where it was. -/
theorem ledger_calls_all_or_nothing_witness :
    (∀ a ∈ demoW2.db.accounts, a.Id ≠ demoMissing) ∧
    ∃ err w', AccountTransfer (demoTransfer 5 1002) demoW2 demoA demoMissing 50 [] = (.error err, w') ∧
      w'.db = demoW2.db ∧ balanceOf w'.db demoA = balanceOf demoW2.db demoA :=
  ⟨by decide,
   ledger_calls_all_or_nothing.2.2.2 (demoTransfer 5 1002) demoW2 demoA demoMissing 50 []
    (by decide)⟩

end accounts

namespace accounts
open identifier

/-! ## The duplicate check -/

theorem transactionIsUnique_false {db : Store} {e : KeyEnv} {key : Text}
    (hq : e.queryFails = false) (hex : ∃ t ∈ db.transactions, t.IdempotencyKey = key) :
    transactionIsUnique db e key = false := by
  obtain ⟨t, ht, hk⟩ := hex
  unfold transactionIsUnique
  simp only [hq, Bool.false_eq_true, if_false, beq_eq_false_iff_ne, ne_eq, List.length_eq_zero]
  intro hnil
  have : t ∈ db.transactions.filter (fun t => t.IdempotencyKey == key) :=
    List.mem_filter.mpr ⟨ht, by simp [hk]⟩
  rw [hnil] at this
  exact List.not_mem_nil _ this

/-- With a counting query that works, a call whose computed key is already stored returns
"transaction already exists" at once: no transaction is opened, no identifier minted, the
state is the one from before the call. For `AccountTransfer` the key of either leg will do. -/
theorem duplicate_key_rejected :
    (∀ (e : MoveEnv) (w : World) (a : Identifier) (amount : Int) (d : Text),
      e.key.queryFails = false →
      (∃ t ∈ w.db.transactions, t.IdempotencyKey = generateIdempotencyKey e.key a amount .Credit) →
      DepositFunds e w a amount d = (.error .alreadyExists, w)) ∧
    (∀ (e : MoveEnv) (w : World) (a : Identifier) (amount : Int) (d : Text),
      e.key.queryFails = false →
      (∃ t ∈ w.db.transactions, t.IdempotencyKey = generateIdempotencyKey e.key a amount .Debit) →
      WithdrawFunds e w a amount d = (.error .alreadyExists, w)) ∧
    (∀ (e : TransferEnv) (w : World) (src dst : Identifier) (amount : Int) (d : Text),
      e.sourceKey.queryFails = false → e.destKey.queryFails = false →
      ((∃ t ∈ w.db.transactions,
          t.IdempotencyKey = generateIdempotencyKey e.sourceKey src amount .Debit) ∨
        (∃ t ∈ w.db.transactions,
          t.IdempotencyKey = generateIdempotencyKey e.destKey dst amount .Credit)) →
      AccountTransfer e w src dst amount d = (.error .alreadyExists, w)) := by
  refine ⟨?_, ?_, ?_⟩
  · intro e w a amount d hq hex
    simp [DepositFunds, transactionIsUnique_false hq hex]
  · intro e w a amount d hq hex
    simp [WithdrawFunds, transactionIsUnique_false hq hex]
  · intro e w src dst amount d hq1 hq2 hex
    rcases hex with hex | hex
    · simp [AccountTransfer, transactionIsUnique_false hq1 hex]
    · simp [AccountTransfer, transactionIsUnique_false hq2 hex]

/-- C6, the code at the failing input. The key `[1]` of the deposit `demoT1` is stored in
`demoW2`; a second deposit computes the same key while the counting query fails. The error
of `row.Scan` is dropped, `transactionIsUnique` answers `true`, the work transaction is
opened, the balance updated and an identifier minted; the call fails only at the insert
(unique key), with "failed to insert transaction" and not "transaction already exists". -/
theorem DepositFunds_duplicate_unnoticed :
    (∃ t ∈ demoW2.db.transactions,
        t.IdempotencyKey = generateIdempotencyKey demoRetry.key demoA 100 .Credit) ∧
    transactionIsUnique demoW2.db demoRetry.key [1] = true ∧
    DepositFunds demoRetry demoW2 demoA 100 []
      = (.error .insertFailed, { demoW2 with counter := 4 }) ∧
    DepositFunds { demoRetry with key := demoKey 1 } demoW2 demoA 100 []
      = (.error .alreadyExists, demoW2) := by
  refine ⟨⟨demoT1, by decide, by decide⟩, by decide, rfl, rfl⟩

end accounts

namespace accounts
open identifier

/-! ## The as-of balance -/

theorem wrapInt_wrapInt_sub (x y : Int) : wrapInt (wrapInt x - y) = wrapInt (x - y) := by
  rw [Int.sub_eq_add_neg, wrapInt_wrapInt_add, ← Int.sub_eq_add_neg]

theorem sumRows_eq (rows : List Transaction) (i : Nat) (x : Int) :
    sumRows none rows i (wrapInt x)
      = .ok (wrapInt (x
          + ((rows.filter (fun t => t.TransactionType == .Credit)).map (fun t => t.Amount)).sum
          - ((rows.filter (fun t => t.TransactionType == .Debit)).map (fun t => t.Amount)).sum)) := by
  induction rows generalizing i x with
  | nil => simp [sumRows]
  | cons row rows ih =>
    cases hty : row.TransactionType
    · simp only [sumRows, hty, wrapInt_wrapInt_add, ih, reduceCtorEq, if_false]
      congr 1
      apply wrapInt_congr
      simp [List.filter_cons, hty]
      omega
    · simp only [sumRows, hty, wrapInt_wrapInt_sub, ih, reduceCtorEq, if_false]
      congr 1
      apply wrapInt_congr
      simp [List.filter_cons, hty]
      omega

theorem GetBalance_sound (db : Store) (a : Identifier) (ts : Time) :
    GetBalance RowsEnv.sound db a ts = .ok (wrapInt (asOfBalance db a ts)) := by
  have h := sumRows_eq (datedOf db a ts) 0 0
  rw [wrapInt_zero] at h
  simp only [GetBalance, RowsEnv.sound, Bool.false_eq_true, if_false]
  rw [show (db.transactions.filter
      (fun t => t.AccountId == a && decide (t.TransactionDate ≤ ts))) = datedOf db a ts from rfl, h]
  congr 1
  apply wrapInt_congr
  unfold asOfBalance
  omega

/-- C9 (amended). When the query works and its rows are read to the end, `GetBalance`
returns the credits minus the debits of the account dated `timestamp` or earlier, taken as
a Go `int`: exactly that number whenever it is in the 64-bit range, wrapped around
otherwise; it reads the transactions only, so two databases with the same transactions give
the same answer whatever the `balance` column holds; and after a deposit of 100 and a
withdrawal of 40 on an account without transactions, the balance at a time not earlier than
both is 60 and the account has exactly two complete transactions. -/
theorem GetBalance_asOf :
    (∀ (db : Store) (a : Identifier) (ts : Time),
      GetBalance RowsEnv.sound db a ts = .ok (wrapInt (asOfBalance db a ts)) ∧
      (inIntRange (asOfBalance db a ts) →
        GetBalance RowsEnv.sound db a ts = .ok (asOfBalance db a ts))) ∧
    (∀ (e : RowsEnv) (db db' : Store) (a : Identifier) (ts : Time),
      db.transactions = db'.transactions → GetBalance e db a ts = GetBalance e db' a ts) ∧
    (∀ (e1 e2 : MoveEnv) (w w1 w2 : World) (a : Identifier) (d1 d2 : Text)
      (t1 t2 : Transaction) (ts : Time),
      (∀ t ∈ w.db.transactions, t.AccountId ≠ a) →
      DepositFunds e1 w a 100 d1 = (.ok t1, w1) →
      WithdrawFunds e2 w1 a 40 d2 = (.ok t2, w2) →
      t1.TransactionDate ≤ ts → t2.TransactionDate ≤ ts →
      GetBalance RowsEnv.sound w2.db a ts = .ok 60 ∧ (completeOf w2.db a).length = 2) := by
  refine ⟨?_, ?_, ?_⟩
  · intro db a ts
    refine ⟨GetBalance_sound db a ts, fun hr => ?_⟩
    rw [GetBalance_sound, wrapInt_of_inRange _ hr]
  · intro e db db' a ts h
    simp [GetBalance, h]
  · intro e1 e2 w w1 w2 a d1 d2 t1 t2 ts hfresh h1 h2 hd1 hd2
    rw [DepositFunds_eq] at h1
    rw [WithdrawFunds_eq] at h2
    obtain ⟨_, -, ht1, -, htr1, -⟩ := moveFunds_ok h1
    obtain ⟨_, -, ht2, -, htr2, -⟩ := moveFunds_ok h2
    have hnone : ∀ (p : Transaction → Bool),
        w.db.transactions.filter (fun t => t.AccountId == a && p t) = [] := by
      intro p
      rw [List.filter_eq_nil_iff]
      intro t ht
      simp [hfresh t ht]
    have e1a : t1.AccountId = a := by rw [ht1]
    have e2a : t2.AccountId = a := by rw [ht2]
    have e1t : t1.TransactionType = .Credit := by rw [ht1]
    have e2t : t2.TransactionType = .Debit := by rw [ht2]
    have e1m : t1.Amount = 100 := by rw [ht1]
    have e2m : t2.Amount = 40 := by rw [ht2]
    have e1s : t1.Status = .Complete := by rw [ht1]
    have e2s : t2.Status = .Complete := by rw [ht2]
    constructor
    · have hsum : asOfBalance w2.db a ts = 60 := by
        simp only [asOfBalance, datedOf, htr2, htr1, List.filter_append,
          hnone (fun t => decide (t.TransactionDate ≤ ts)), List.nil_append]
        simp [List.filter_cons, e1a, e2a, hd1, hd2, e1t, e2t, e1m, e2m]
      rw [GetBalance_sound, hsum]
      rfl
    · simp only [completeOf, htr2, htr1, List.filter_append,
        hnone (fun t => t.Status == .Complete), List.nil_append]
      simp [List.filter_cons, e1a, e2a, e1s, e2s]

theorem GetBalance_asOf_witness :
    (∀ t ∈ demoW1.db.transactions, t.AccountId ≠ demoA) ∧
    DepositFunds (demoMove 1 1001) demoW1 demoA 100 [] = (.ok demoT1, demoW2) ∧
    WithdrawFunds (demoMove 2 1002) demoW2 demoA 40 [] = (.ok demoT2, demoW4) ∧
    GetBalance RowsEnv.sound demoW4.db demoA 2000 = .ok 60 ∧
    (completeOf demoW4.db demoA).length = 2 :=
  ⟨by decide, rfl, rfl,
   GetBalance_asOf.2.2 (demoMove 1 1001) (demoMove 2 1002) demoW1 demoW2 demoW4 demoA [] []
     demoT1 demoT2 2000 (by decide) rfl rfl (by decide) (by decide)⟩

/-- The claim as first stated fails in two places. After two deposits of `2 ^ 63 - 1` the
credits minus the debits are `2 ^ 64 - 2` and `GetBalance` returns `-2`. And after the
deposit of 100 and the withdrawal of 40, when the row stream breaks behind the first row,
the loop ends as at the end of the rows, `rows.Err()` is not looked at, and `GetBalance`
returns 100 and no error. -/
theorem GetBalance_counterexample :
    (asOfBalance demoO2.db demoA 2000 = 18446744073709551614 ∧
      GetBalance RowsEnv.sound demoO2.db demoA 2000 = .ok (-2)) ∧
    (asOfBalance demoW4.db demoA 2000 = 60 ∧
      GetBalance { RowsEnv.sound with breaksAfter := some 1 } demoW4.db demoA 2000 = .ok 100) :=
  ⟨⟨by decide, rfl⟩, ⟨by decide, rfl⟩⟩

end accounts

namespace accounts
open identifier

/-! ## Paging -/

/-- C8, the code at the failing input: five transactions, page size 2. The cursor a page
returns is the id of its last row and the next query takes `id >= cursor`, so every page
after the first starts with the last row of the page before: the calls return rows 1-2,
then 2-3, then 3-4 (still with a cursor), then 4-5 without cursor. -/
theorem ListTransactions_pages_overlap :
    ListTransactions false demoFive.db demoA none 2
      = .ok { Transactions := [demoRow 1, demoRow 2], NextCursor := some (demoId 2) } ∧
    ListTransactions false demoFive.db demoA (some (demoId 2)) 2
      = .ok { Transactions := [demoRow 2, demoRow 3], NextCursor := some (demoId 3) } ∧
    ListTransactions false demoFive.db demoA (some (demoId 3)) 2
      = .ok { Transactions := [demoRow 3, demoRow 4], NextCursor := some (demoId 4) } ∧
    ListTransactions false demoFive.db demoA (some (demoId 4)) 2
      = .ok { Transactions := [demoRow 4, demoRow 5], NextCursor := none } ∧
    (demoFive.db.transactions.map (fun t => t.Id)) = [demoId 1, demoId 2, demoId 3, demoId 4, demoId 5] :=
  ⟨rfl, rfl, rfl, rfl, rfl⟩

/-- C7, the code at the failing input: the wall clock went back a millisecond between two
deposits, so the second id is the smaller one; the query has no `ORDER BY` and the page
comes in the order of the table, the greater id first. -/
theorem ListTransactions_not_ascending :
    Reachable demoBack ∧
    ListTransactions false demoBack.db demoA none 15
      = .ok { Transactions := demoBackRows, NextCursor := none } ∧
    demoBackRows.map (fun t => t.Id) = [mint 3 1002 demoRng, mint 4 1001 demoRng] ∧
    strLt (mint 4 1001 demoRng).String (mint 3 1002 demoRng).String = true :=
  ⟨Reachable.depositFunds _ _ _ _ _ (Reachable.depositFunds _ _ _ _ _
      (Reachable.createAccount _ _ _ _ (Reachable.createAccount _ _ _ _ Reachable.init))),
   rfl, rfl, by decide⟩

end accounts

namespace accounts
open identifier

theorem scanIdentifier_ok {i j : Identifier} (h : scanIdentifier i = .ok j) : j = i := by
  unfold scanIdentifier at h
  rw [FromString_eq] at h
  simp only [Identifier.String] at h
  split at h
  · rename_i id heq
    split at heq
    · split at heq
      · injection heq with heq
        injection h with h
        rw [← h, ← heq]
      · cases heq
    · cases heq
  · cases h

theorem scanTransaction_ok {row t : Transaction} (h : scanTransaction row = .ok t) :
    t = blankKey row := by
  unfold scanTransaction at h
  split at h
  · rename_i id accountId h1 h2
    injection h with h
    rw [← h, scanIdentifier_ok h1, scanIdentifier_ok h2]
    rfl
  · cases h

theorem scanRows_ok {rows acc results : List Transaction}
    (h : scanRows rows acc = .ok results) : results = acc ++ rows.map blankKey := by
  induction rows generalizing acc with
  | nil =>
    simp only [scanRows] at h
    injection h with h
    simp [h]
  | cons row rows ih =>
    simp only [scanRows] at h
    split at h
    · cases h
    · rename_i t ht
      rw [ih h, scanTransaction_ok ht]
      simp

theorem getLast_take (l : List Transaction) (n : Nat) (h1 : 1 ≤ n) (h2 : n ≤ l.length) :
    (l.take n).getLast? = l.get? (n - 1) := by
  rw [List.getLast?_eq_getElem?, List.length_take, Nat.min_eq_left h2, List.getElem?_take,
    List.get?_eq_getElem?]
  simp
  omega

theorem ListTransactions_unfold (db : Store) (a : Identifier) (cur : Option Identifier)
    (n : Nat) :
    ListTransactions false db a cur n =
      match scanRows ((matchingRows db a (startOf cur)).take (n + 1)) [] with
      | Except.error err => Except.error err
      | Except.ok results =>
        if results.length > n then
          if n = 0 then Except.error Error.indexOutOfRange
          else
            match results.get? (n - 1) with
            | none => Except.error Error.indexOutOfRange
            | some last =>
              Except.ok { Transactions := results.take n, NextCursor := some last.Id }
        else Except.ok { Transactions := results, NextCursor := none } := by
  cases cur <;> rfl

/-- What a page of `ListTransactions` is, whatever the order of the table: at most
`pageSize` rows, all of the account and with `id >= start`; a next cursor exactly when
more than `pageSize` rows match, and then the id of the last row of the page. -/
theorem ListTransactions_page (db : Store) (a : Identifier) (cur : Option Identifier)
    (n : Nat) (resp : ListTransactionsResp) (hn : 1 ≤ n)
    (h : ListTransactions false db a cur n = .ok resp) :
    resp.Transactions = ((matchingRows db a (startOf cur)).take n).map blankKey ∧
    resp.Transactions.length ≤ n ∧
    (∀ t ∈ resp.Transactions, t.AccountId = a ∧ idGe t.Id.String (startOf cur) = true) ∧
    (resp.NextCursor.isSome = true ↔ n < (matchingRows db a (startOf cur)).length) ∧
    (∀ c, resp.NextCursor = some c →
      ∃ t, resp.Transactions.getLast? = some t ∧ t.Id = c) := by
  rw [ListTransactions_unfold] at h
  generalize hM : matchingRows db a (startOf cur) = M at h
  have hmem : ∀ t ∈ (M.take n).map blankKey,
      t.AccountId = a ∧ idGe t.Id.String (startOf cur) = true := by
    intro t ht
    rw [List.mem_map] at ht
    obtain ⟨r, hr, rfl⟩ := ht
    have hr' : r ∈ matchingRows db a (startOf cur) := hM ▸ List.mem_of_mem_take hr
    simp only [matchingRows, List.mem_filter, Bool.and_eq_true, beq_iff_eq] at hr'
    exact ⟨hr'.2.1, hr'.2.2⟩
  split at h
  · cases h
  · rename_i results hres
    have hr := scanRows_ok hres
    simp only [List.nil_append] at hr
    have hlen : results.length = min (n + 1) M.length := by
      rw [hr]; simp
    have htake : results.take n = (M.take n).map blankKey := by
      rw [hr, ← List.map_take, List.take_take]
      simp
    split at h
    · rename_i hgt
      have hn0 : ¬ n = 0 := by omega
      simp only [hn0, if_false] at h
      split at h
      · cases h
      · rename_i last hlast
        injection h with h
        subst h
        simp only [Option.isSome_some, true_iff, Option.some.injEq]
        refine ⟨htake, ?_, ?_, by omega, ?_⟩
        · rw [List.length_take]; omega
        · rw [htake]; exact hmem
        · intro c hc
          refine ⟨last, ?_, hc⟩
          rw [getLast_take results n hn (by omega)]
          exact hlast
    · rename_i hle
      injection h with h
      subst h
      have hML : M.length ≤ n := by omega
      have hall : results = (M.take n).map blankKey := by
        rw [← htake, List.take_of_length_le (by omega)]
      refine ⟨hall, ?_, ?_, ?_, ?_⟩
      · show results.length ≤ n
        omega
      · rw [hall]; exact hmem
      · simp; omega
      · intro c hc; cases hc

end accounts

namespace identifier

/-! ## Round trip and `Validate` -/

theorem FromString_ok_of_wellFormed (s : List Nat) (h : isWellFormed s = true) :
    FromString s = .ok ⟨s⟩ := by
  rw [FromString_eq]
  simp [isWellFormed_length s h, h]

theorem FromString_ok_iff (s : List Nat) :
    (∃ j, FromString s = .ok j) ↔ isWellFormed s = true := by
  constructor
  · rintro ⟨j, hj⟩
    rw [FromString_eq] at hj
    by_cases h : s.length = 20
    · by_cases hw : isWellFormed s = true
      · exact hw
      · simp [h, hw] at hj
    · simp [h] at hj
  · intro hw
    exact ⟨⟨s⟩, FromString_ok_of_wellFormed s hw⟩

/-- C11. For every valid identifier string `s`, `FromString s` succeeds with an identifier
whose `String()` is `s`, parsing that string again gives the same result, and `FromBytes`
of the same bytes succeeds with an identifier whose `Bytes()` are those bytes. -/
theorem FromString_roundtrip (s : List Nat) (h : isWellFormed s = true) :
    ∃ i, FromString s = .ok i ∧ i.String = s ∧ FromString i.String = FromString s ∧
      ∃ j, FromBytes s = .ok j ∧ j.Bytes = s := by
  refine ⟨⟨s⟩, FromString_ok_of_wellFormed s h, rfl, rfl, ⟨s⟩, ?_, rfl⟩
  rw [FromBytes_eq_FromString]
  exact FromString_ok_of_wellFormed s h

theorem FromString_roundtrip_witness :
    isWellFormed testValid = true ∧
    ∃ i, FromString testValid = .ok i ∧ i.String = testValid ∧
      FromString i.String = FromString testValid ∧
      ∃ j, FromBytes testValid = .ok j ∧ j.Bytes = testValid :=
  ⟨by decide, FromString_roundtrip testValid (by decide)⟩

/-- C15. `Validate` never returns an error; it returns true exactly when `FromString` of
the identifier's `String()` succeeds, which is exactly when the bytes are "c-" followed by
18 characters of the alphabet; it returns false for the zero-valued identifier. -/
theorem Validate_iff (id : Identifier) :
    (Validate id).2 = none ∧
    ((Validate id).1 = true ↔ ∃ j, FromString id.String = .ok j) ∧
    ((Validate id).1 = true ↔ isWellFormed id.bytes = true) ∧
    (Validate Identifier.zero).1 = false := by
  have hv : (Validate id).1 = true ↔ isWellFormed id.bytes = true := by
    simp only [Validate, validatePattern_eq, validateLength, identifierLength,
      Bool.and_eq_true, beq_iff_eq]
    constructor
    · exact fun h => h.2
    · exact fun h => ⟨isWellFormed_length _ h, h⟩
  refine ⟨rfl, ?_, hv, by decide⟩
  rw [hv]
  exact (FromString_ok_iff id.bytes).symm

/-! ## The fields of a minted identifier -/

theorem getRandSequence_eq (rng : Nat → Fin 62) :
    getRandSequence rng = (List.range 6).map (fun i => alphaNum (rng i).val) := rfl

theorem alphaNum_mem {r : Nat} (h : r < 62) : alphaNum r ∈ alphaNumChars := by
  unfold alphaNum
  rw [List.getD_eq_getElem _ _ (by rw [alphaNumChars_length]; exact h)]
  exact List.getElem_mem _

theorem alphaNumChars_ascii : ∀ c ∈ alphaNumChars, c < 128 := by decide

theorem digits62_eq_map (k n : Nat) : digits62 k n = (digitVals k n).map alphaNum := by
  induction k generalizing n with
  | zero => rfl
  | succ k ih => simp [digits62, digitVals, ih]

theorem digitVals_length (k n : Nat) : (digitVals k n).length = k := by
  induction k generalizing n with
  | zero => rfl
  | succ k ih => simp [digitVals, ih]

theorem digitVals_lt (k n : Nat) : ∀ d ∈ digitVals k n, d < 62 := by
  induction k generalizing n with
  | zero => simp [digitVals]
  | succ k ih =>
    intro d hd
    simp only [digitVals, List.mem_append, List.mem_singleton] at hd
    rcases hd with hd | rfl
    · exact ih _ d hd
    · exact Nat.mod_lt _ (by decide)

theorem valueMSB_digitVals (k n : Nat) : valueMSB (digitVals k n) = n % 62 ^ k := by
  induction k generalizing n with
  | zero => simp [digitVals, valueMSB, Nat.mod_one]
  | succ k ih =>
    have := ih (n / 62)
    unfold valueMSB at this ⊢
    rw [digitVals, List.foldl_append, this, mod_pow_succ_low]
    simp only [List.foldl_cons, List.foldl_nil]
    omega

theorem mint_rest_mem (count timeInt : Nat) (rng : Nat → Fin 62) :
    ∀ x ∈ digits62 8 timeInt ++ digits62 4 count ++ getRandSequence rng, x ∈ alphaNumChars := by
  intro x hx
  simp only [List.mem_append, digits62_eq_map, getRandSequence_eq, List.mem_map,
    List.mem_range] at hx
  rcases hx with (⟨d, hd, rfl⟩ | ⟨d, hd, rfl⟩) | ⟨i, -, rfl⟩
  · exact alphaNum_mem (digitVals_lt _ _ d hd)
  · exact alphaNum_mem (digitVals_lt _ _ d hd)
  · exact alphaNum_mem (rng i).isLt

theorem isWellFormed_of (rest : List Nat) (hl : rest.length = 18)
    (hm : ∀ x ∈ rest, x ∈ alphaNumChars) : isWellFormed (idPrefix ++ rest) = true := by
  have h1 : (idPrefix ++ rest).take 2 = idPrefix := by simp [idPrefix]
  have h2 : (idPrefix ++ rest).drop 2 = rest := by simp [idPrefix]
  unfold isWellFormed
  rw [h1, h2]
  simp only [hl, beq_self_eq_true, Bool.true_and, List.all_eq_true]
  intro x hx
  simpa using hm x hx

theorem mint_wellFormed (count timeInt : Nat) (rng : Nat → Fin 62) :
    isWellFormed (mint count timeInt rng).bytes = true := by
  rw [mint_bytes, List.append_assoc, List.append_assoc, ← List.append_assoc (digits62 8 timeInt)]
  exact isWellFormed_of _ (by simp [digits62_length, getRandSequence_length])
    (mint_rest_mem count timeInt rng)

/-- C13. `Validate` returns true and no error for every identifier that `New` produces,
whatever the counter, the clock reading and the random draws. -/
theorem Validate_New (counter timeInt : Nat) (rng : Nat → Fin 62) :
    Validate (New counter timeInt rng).1 = (true, none) ∧
    ∀ count, Validate (mint count timeInt rng) = (true, none) := by
  have h : ∀ count, Validate (mint count timeInt rng) = (true, none) := by
    intro count
    have hw := mint_wellFormed count timeInt rng
    simp [Validate, validatePattern_eq, validateLength, identifierLength, hw,
      isWellFormed_length _ hw]
  exact ⟨h _, h⟩

/-- C14. An identifier returned by `New` has exactly 20 bytes, each an ASCII character: the
prefix "c-", the 8 base-62 digits of the clock reading modulo `62 ^ 8` and the 4 base-62
digits of the counter value modulo `62 ^ 4`, most significant digit first, and 6
characters chosen by the random draws; every character after the prefix is one of the 62
of the alphabet. -/
theorem New_layout (counter timeInt : Nat) (rng : Nat → Fin 62) :
    ((New counter timeInt rng).1.bytes.length = 20 ∧
      (New counter timeInt rng).1.String.length = 20) ∧
    (New counter timeInt rng).2 = (counter + 1) % 2 ^ 32 ∧
    (New counter timeInt rng).1.bytes
      = idPrefix ++ (digitVals 8 timeInt).map alphaNum
          ++ (digitVals 4 (New counter timeInt rng).2).map alphaNum
          ++ (List.range 6).map (fun i => alphaNum (rng i).val) ∧
    ((digitVals 8 timeInt).length = 8 ∧ (∀ d ∈ digitVals 8 timeInt, d < 62) ∧
      valueMSB (digitVals 8 timeInt) = timeInt % 62 ^ 8) ∧
    ((digitVals 4 (New counter timeInt rng).2).length = 4 ∧
      (∀ d ∈ digitVals 4 (New counter timeInt rng).2, d < 62) ∧
      valueMSB (digitVals 4 (New counter timeInt rng).2) = (New counter timeInt rng).2 % 62 ^ 4) ∧
    (∀ x ∈ (New counter timeInt rng).1.bytes.drop 2, x ∈ alphaNumChars) ∧
    (∀ x ∈ (New counter timeInt rng).1.bytes, x < 128) := by
  have hb := mint_bytes (atomicAddUint32 counter 1) timeInt rng
  have hrest : ∀ x ∈ (New counter timeInt rng).1.bytes.drop 2, x ∈ alphaNumChars := by
    intro x hx
    have : (New counter timeInt rng).1.bytes.drop 2
        = digits62 8 timeInt ++ digits62 4 (atomicAddUint32 counter 1) ++ getRandSequence rng := by
      show (mint (atomicAddUint32 counter 1) timeInt rng).bytes.drop 2 = _
      rw [hb]; simp [idPrefix]
    rw [this] at hx
    exact mint_rest_mem _ _ _ x hx
  refine ⟨⟨mint_length _ _ _, mint_length _ _ _⟩, rfl, ?_,
    ⟨digitVals_length _ _, digitVals_lt _ _, valueMSB_digitVals _ _⟩,
    ⟨digitVals_length _ _, digitVals_lt _ _, valueMSB_digitVals _ _⟩, hrest, ?_⟩
  · show (mint (atomicAddUint32 counter 1) timeInt rng).bytes = _
    rw [hb, digits62_eq_map, digits62_eq_map, getRandSequence_eq]
    rfl
  · intro x hx
    have hsplit : (New counter timeInt rng).1.bytes
        = (New counter timeInt rng).1.bytes.take 2 ++ (New counter timeInt rng).1.bytes.drop 2 :=
      (List.take_append_drop 2 _).symm
    rw [hsplit, List.mem_append] at hx
    rcases hx with hx | hx
    · have : (New counter timeInt rng).1.bytes.take 2 = idPrefix := by
        show (mint (atomicAddUint32 counter 1) timeInt rng).bytes.take 2 = _
        rw [hb]; simp [idPrefix]
      rw [this] at hx
      simp only [idPrefix, List.mem_cons, List.mem_singleton, List.not_mem_nil, or_false] at hx
      omega
    · exact alphaNumChars_ascii x (hrest x hx)

/-! ## Runs of `New` -/

theorem newSeq_cons (k : Nat) (e : Nat × (Nat → Fin 62)) (es : List (Nat × (Nat → Fin 62))) :
    newSeq k (e :: es)
      = mint ((k + 1) % 2 ^ 32) e.1 e.2 :: newSeq ((k + 1) % 2 ^ 32) es := rfl

/-- Every identifier of a run from counter state `k` is minted from the counter value
`(k + m) mod 2 ^ 32` of its call, the `m`-th. -/
theorem mem_newSeq {k : Nat} {es : List (Nat × (Nat → Fin 62))} {x : Identifier}
    (h : x ∈ newSeq k es) :
    ∃ m t r, 1 ≤ m ∧ m ≤ es.length ∧ x = mint ((k + m) % 2 ^ 32) t r := by
  induction es generalizing k with
  | nil => simp [newSeq] at h
  | cons e es ih =>
    rw [newSeq_cons, List.mem_cons] at h
    rcases h with rfl | h
    · exact ⟨1, e.1, e.2, le_refl _, by simp, rfl⟩
    · obtain ⟨m, t, r, h1, h2, rfl⟩ := ih h
      refine ⟨m + 1, t, r, by omega, by simp; omega, ?_⟩
      congr 1
      omega

theorem field_ne_in_run (a m n : Nat) (ha : a < 2 ^ 32) (h1 : 1 ≤ m) (h2 : m ≤ n)
    (hn : n + 1 < 62 ^ 4) (hw : a + n < 2 ^ 32 ∨ n + 1 ≤ 9829856) :
    a % 62 ^ 4 ≠ (a + m) % 2 ^ 32 % 62 ^ 4 := by
  norm_num at ha hn hw ⊢
  rcases Nat.lt_or_ge (a + m) 4294967296 with h | h
  · rw [Nat.mod_eq_of_lt h]
    omega
  · have hm : (a + m) % 4294967296 = a + m - 4294967296 := by omega
    rw [hm]
    have hsmall : (a + m - 4294967296) % 14776336 = a + m - 4294967296 :=
      Nat.mod_eq_of_lt (by omega)
    rw [hsmall]
    omega

theorem newSeq_nodup (k : Nat) (es : List (Nat × (Nat → Fin 62)))
    (hlen : es.length < 62 ^ 4) (hw : k + es.length < 2 ^ 32 ∨ es.length ≤ 9829856) :
    (newSeq k es).Nodup := by
  induction es generalizing k with
  | nil => simp [newSeq]
  | cons e es ih =>
    rw [newSeq_cons, List.nodup_cons]
    simp only [List.length_cons] at hlen hw
    have ha : (k + 1) % 2 ^ 32 < 2 ^ 32 := Nat.mod_lt _ (by norm_num)
    have hw' : (k + 1) % 2 ^ 32 + es.length < 2 ^ 32 ∨ es.length + 1 ≤ 9829856 := by
      rcases hw with h | h
      · left
        rw [Nat.mod_eq_of_lt (by omega)]
        omega
      · exact Or.inr h
    constructor
    · intro hmem
      obtain ⟨m, t, r, h1, h2, heq⟩ := mem_newSeq hmem
      exact mint_ne_of_counter _ _ _ _ _ _
        (field_ne_in_run _ m es.length ha h1 h2 hlen hw') heq
    · refine ih _ (by omega) ?_
      rcases hw' with h | h
      · exact Or.inl h
      · exact Or.inr (by omega)

/-- C12 (amended). The identifiers of a run of fewer than `62 ^ 4` consecutive calls of
`New` are pairwise distinct, whatever the clock readings and the random draws, provided the
32-bit counter does not pass from `2 ^ 32 - 1` to `0` within the run or the run has at most
9829856 calls (`2 ^ 32 mod 62 ^ 4`). -/
theorem New_run_distinct (counter : Nat) (run : List (Nat × (Nat → Fin 62)))
    (hlen : run.length < 62 ^ 4)
    (hwrap : counter + run.length < 2 ^ 32 ∨ run.length ≤ 9829856) :
    (newSeq counter run).Pairwise (fun a b => a.bytes ≠ b.bytes) := by
  have h := newSeq_nodup counter run hlen hwrap
  refine List.Pairwise.imp ?_ h
  intro a b hab hbytes
  apply hab
  cases a; cases b
  simp only at hbytes
  rw [hbytes]

theorem New_run_distinct_witness :
    (newSeq 0 [(1000, fun _ => 0), (1000, fun _ => 0), (999, fun _ => 0)]).Pairwise
      (fun a b => a.bytes ≠ b.bytes) :=
  New_run_distinct 0 [(1000, fun _ => 0), (1000, fun _ => 0), (999, fun _ => 0)]
    (by norm_num) (Or.inl (by norm_num))

theorem mint_eq_of_field (c1 c2 t : Nat) (r : Nat → Fin 62)
    (h : c1 % 62 ^ 4 = c2 % 62 ^ 4) : mint c1 t r = mint c2 t r := by
  have hb : (mint c1 t r).bytes = (mint c2 t r).bytes := by
    rw [mint_bytes, mint_bytes, (digits62_eq_iff 4 c1 c2).mpr h]
  cases h1 : mint c1 t r
  cases h2 : mint c2 t r
  rw [h1, h2] at hb
  simp only at hb
  rw [hb]

theorem mem_newSeq_replicate (e : Nat × (Nat → Fin 62)) (n k m : Nat) (h1 : 1 ≤ m)
    (h2 : m ≤ n) : mint ((k + m) % 2 ^ 32) e.1 e.2 ∈ newSeq k (List.replicate n e) := by
  induction n generalizing k m with
  | zero => omega
  | succ n ih =>
    rw [List.replicate_succ, newSeq_cons, List.mem_cons]
    rcases Nat.eq_or_lt_of_le h1 with h | h
    · left; rw [← h]
    · right
      have := ih ((k + 1) % 2 ^ 32) (m - 1) (by omega) (by omega)
      have he : ((k + 1) % 2 ^ 32 + (m - 1)) % 2 ^ 32 = (k + m) % 2 ^ 32 := by omega
      rw [he] at this
      exact this

/-- The claim as first stated fails when the 32-bit counter overflows inside the run: from
the counter state `2 ^ 32 - 2`, the first call of a run of 9829857 calls (fewer than
`62 ^ 4`) has counter value `2 ^ 32 - 1` and the last one `9829855`; the two values differ
but have the same four base-62 digits, and with equal clock readings and random draws the
two identifiers are equal. -/
theorem New_run_collision :
    wrapRun.length < 62 ^ 4 ∧
    (4294967295 : Nat) ≠ 9829855 ∧
    mint 4294967295 0 (fun _ => 0) ∈ newSeq 4294967294 wrapRun ∧
    mint 4294967295 0 (fun _ => 0) = mint 9829855 0 (fun _ => 0) ∧
    ¬ (newSeq 4294967294 wrapRun).Pairwise (fun a b => a.bytes ≠ b.bytes) := by
  have hlen : wrapRun.length = 9829857 := by rw [wrapRun, List.length_replicate]
  have heq : mint 4294967295 0 (fun _ => 0) = mint 9829855 0 (fun _ => 0) :=
    mint_eq_of_field _ _ _ _ (by norm_num)
  have hrun : newSeq 4294967294 wrapRun
      = mint 4294967295 0 (fun _ => 0)
          :: newSeq 4294967295 (List.replicate 9829856 (0, fun _ => 0)) := by
    have : wrapRun = (0, fun _ => 0) :: List.replicate 9829856 (0, fun _ => 0) := by
      rw [wrapRun, ← List.replicate_succ]
    have hc : (4294967294 + 1) % 2 ^ 32 = 4294967295 := by norm_num
    rw [this, newSeq_cons, hc]
  have hlast : mint 9829855 0 (fun _ => 0)
      ∈ newSeq 4294967295 (List.replicate 9829856 (0, fun _ => 0)) := by
    have hc : (4294967295 + 9829856) % 2 ^ 32 = 9829855 := by norm_num
    have := mem_newSeq_replicate (0, fun _ => 0) 9829856 4294967295 9829856 (by norm_num)
      (le_refl _)
    rw [hc] at this
    exact this
  refine ⟨by rw [hlen]; norm_num, by norm_num, ?_, heq, ?_⟩
  · rw [hrun]; exact List.mem_cons_self _ _
  · rw [hrun, List.pairwise_cons]
    intro h
    exact h.1 _ hlast (by rw [heq])

end identifier

namespace accounts
open identifier

/-! ## Withdrawals -/

/-- When no statement fails, the account exists, and the key and the id are new,
`DepositFunds` and `WithdrawFunds` succeed: nothing else is tested, the amount and the
balance least of all. -/
theorem moveFunds_succeeds (ty : TransactionType) (e : MoveEnv) (w : World) (a : Identifier)
    (amount : Int) (d : Text) (b : Int)
    (hb : balanceOf w.db a = some b)
    (hu : transactionIsUnique w.db e.key (generateIdempotencyKey e.key a amount ty) = true)
    (h1 : e.beginFails = false) (h2 : e.update.selectFails = false)
    (h3 : e.update.updateFails = false) (h4 : e.insertFails = false)
    (h5 : e.commitFails = false)
    (hfree : ∀ r ∈ w.db.transactions,
      r.Id ≠ (New w.counter e.newId.timeInt e.newId.rng).1 ∧
      r.IdempotencyKey ≠ generateIdempotencyKey e.key a amount ty) :
    ∃ t w', moveFunds ty e w a amount d = (.ok t, w') := by
  unfold balanceOf at hb
  cases hfind : w.db.accounts.find? (fun r => r.Id == a) with
  | none => rw [hfind] at hb; cases hb
  | some row =>
    have hk : ∀ (acc : List Account) (t : Transaction),
        t.Id = (New w.counter e.newId.timeInt e.newId.rng).1 →
        t.IdempotencyKey = generateIdempotencyKey e.key a amount ty →
        transactionKeysFree { accounts := acc, transactions := w.db.transactions } t = true := by
      intro acc t hid hkey
      simp only [transactionKeysFree, List.all_eq_true, Bool.and_eq_true, bne_iff_ne, ne_eq]
      intro r hr
      rw [hid, hkey]
      exact hfree r hr
    unfold moveFunds
    cases ty <;>
      simp [hu, h1, txAccountBalanceUpdate, h2, hfind, h3, execTransactionInsert, h4, h5, hk]

/-- C16 (amended). `WithdrawFunds` is `DepositFunds` with type debit: a successful call
appends exactly one row, the complete debit it returns, and the stored balance of the
account is the old one minus the amount as a Go `int`: it has gone down by exactly the
amount whenever the difference stays in the 64-bit range, and has wrapped around
otherwise; and the call succeeds whenever no statement fails, the account exists and key
and id are new, whatever the amount: nothing compares the amount with the balance, which
becomes negative when the amount is the greater. -/
theorem WithdrawFunds_success :
    (DepositFunds = moveFunds .Credit ∧ WithdrawFunds = moveFunds .Debit) ∧
    (∀ (e : MoveEnv) (w w' : World) (a : Identifier) (amount : Int) (d : Text)
      (t : Transaction),
      WithdrawFunds e w a amount d = (.ok t, w') →
      w'.db.transactions = w.db.transactions ++ [t] ∧
      t.AccountId = a ∧ t.TransactionType = .Debit ∧ t.Amount = amount ∧
      t.Description = some d ∧ t.Status = .Complete ∧
      (∃ b, balanceOf w.db a = some b ∧ balanceOf w'.db a = some (wrapInt (b - amount)) ∧
        (inIntRange (b - amount) → balanceOf w'.db a = some (b - amount))) ∧
      (∀ other, other ≠ a → balanceOf w'.db other = balanceOf w.db other)) ∧
    (∀ (e : MoveEnv) (w : World) (a : Identifier) (amount : Int) (d : Text) (b : Int),
      balanceOf w.db a = some b →
      transactionIsUnique w.db e.key (generateIdempotencyKey e.key a amount .Debit) = true →
      e.beginFails = false → e.update.selectFails = false → e.update.updateFails = false →
      e.insertFails = false → e.commitFails = false →
      (∀ r ∈ w.db.transactions,
        r.Id ≠ (New w.counter e.newId.timeInt e.newId.rng).1 ∧
        r.IdempotencyKey ≠ generateIdempotencyKey e.key a amount .Debit) →
      ∃ t w', WithdrawFunds e w a amount d = (.ok t, w') ∧
        balanceOf w'.db a = some (wrapInt (b - amount)) ∧
        (inIntRange (b - amount) → balanceOf w'.db a = some (b - amount))) := by
  have hd : ∀ (b amount : Int), b + delta .Debit amount = b - amount := by
    intro b amount
    simp [delta, Int.sub_eq_add_neg]
  refine ⟨⟨rfl, rfl⟩, ?_, ?_⟩
  · intro e w w' a amount d t h
    rw [WithdrawFunds_eq] at h
    obtain ⟨row, hrow, ht, hacc, htr, -⟩ := moveFunds_ok h
    obtain ⟨⟨b, hb, hb1, hb2⟩, hother⟩ := moveFunds_balance h
    rw [hd] at hb1 hb2
    exact ⟨htr, by rw [ht], by rw [ht], by rw [ht], by rw [ht], by rw [ht],
      ⟨b, hb, hb1, hb2⟩, hother⟩
  · intro e w a amount d b hb hu h1 h2 h3 h4 h5 hfree
    obtain ⟨t, w', h⟩ := moveFunds_succeeds .Debit e w a amount d b hb hu h1 h2 h3 h4 h5 hfree
    obtain ⟨⟨b', hb0, hb1, hb2⟩, -⟩ := moveFunds_balance h
    rw [hb] at hb0
    injection hb0 with hb0
    subst hb0
    rw [hd] at hb1 hb2
    exact ⟨t, w', by rw [WithdrawFunds_eq]; exact h, hb1, hb2⟩

/-- A withdrawal of 500 from an account that holds 100 succeeds and leaves -400. -/
theorem WithdrawFunds_success_witness :
    WithdrawFunds (demoMove 2 1002) demoW2 demoA 500 [] = (.ok demoT3, demoW5) ∧
    balanceOf demoW2.db demoA = some 100 ∧
    (∃ b, balanceOf demoW2.db demoA = some b ∧
      balanceOf demoW5.db demoA = some (wrapInt (b - 500)) ∧
      (inIntRange (b - 500) → balanceOf demoW5.db demoA = some (b - 500))) ∧
    balanceOf demoW5.db demoA = some (-400) :=
  ⟨rfl, by decide,
   (WithdrawFunds_success.2.1 (demoMove 2 1002) demoW2 demoW5 demoA 500 [] demoT3 rfl).2.2.2.2.2.2.1,
   by decide⟩

/-- The claim as first stated fails at the end of the range of a Go `int`: a withdrawal of
2 from an account that holds `-(2 ^ 63 - 1)` succeeds and leaves the balance `2 ^ 63 - 1`,
not `-(2 ^ 63 + 1)`. -/
theorem WithdrawFunds_overflow_counterexample :
    WithdrawFunds (demoMove 2 1002) demoU1 demoA 2 [] = (.ok demoT5, demoU2) ∧
    balanceOf demoU1.db demoA = some (-demoMax) ∧
    balanceOf demoU2.db demoA = some demoMax ∧
    balanceOf demoU2.db demoA ≠ some (-demoMax - 2) :=
  ⟨rfl, by decide, by decide, by decide⟩

/-! ## Two calls of `DepositFunds` at the same time -/

theorem step_accountId {fu : Bool} {s s' : Sys} {i : Bool} (h : step fu s i = some s') :
    s'.accountId = s.accountId := by
  unfold step at h
  simp only at h
  cases hpc : (s.calls i).pc <;> simp only [hpc] at h
  all_goals repeat' split at h
  all_goals first
    | (cases h; done)
    | (injection h with h; subst h; rfl)

theorem run_accountId {fu : Bool} (schedule : List Bool) :
    ∀ {s s' : Sys}, run fu s schedule = some s' → s'.accountId = s.accountId := by
  induction schedule with
  | nil =>
    intro s s' hr
    injection hr with hr
    subst hr
    rfl
  | cons i rest ih =>
    intro s s' hr
    simp only [run] at hr
    cases hst : step fu s i with
    | none => rw [hst] at hr; cases hr
    | some s1 =>
      rw [hst] at hr
      rw [ih hr, step_accountId hst]

theorem RunInv_start (w : World) (a : Identifier) (e1 e2 : MoveEnv) (x y : Int) (d1 d2 : Text)
    (b : Int) (hb : balanceOf w.db a = some b) :
    RunInv b x y (Sys.start w a e1 e2 x y d1 d2) := by
  refine ⟨⟨rfl, rfl⟩, hb, ?_, ?_, ?_, ?_⟩
  · intro i; cases i <;> simp [Sys.start, Call.start, Pc.critical]
  · intro i; cases i <;> simp [Sys.start, Call.start, Pc.critical]
  · intro i _; cases i <;> rfl
  · intro i; cases i <;> simp [Sys.start, Call.start]


theorem committed_of_result_none {c : Call} (h : c.result = none) : c.committed = false := by
  simp [Call.committed, h]

theorem settled_congr {b : Int} {s s' : Sys}
    (h : ∀ j, (s'.calls j).committed = (s.calls j).committed ∧
      (s'.calls j).amount = (s.calls j).amount) :
    settled b s' = settled b s := by
  simp only [settled, (h false).1, (h true).1, (h false).2, (h true).2]

/-- A statement that changes neither the database nor the lock, and of the call only what
does not matter to the others, keeps the invariant. -/
theorem RunInv_local {b x y : Int} {s : Sys} (h : RunInv b x y s) (i : Bool) (c' : Call)
    (n : Nat) (l : Option Bool) (hl : l = s.lockedBy)
    (ha : c'.amount = (s.calls i).amount)
    (hc : c'.committed = (s.calls i).committed)
    (hk : c'.pc.critical = (s.calls i).pc.critical)
    (hb : c'.balance = (s.calls i).balance)
    (hr : c'.pc ≠ .done → c'.result = none)
    (hp : c'.pc = .commit → c'.transaction ≠ none) :
    RunInv b x y (⟨s.db, n, s.accountId, l, Function.update s.calls i c'⟩ : Sys) := by
  obtain ⟨hamt, hst, hlock, hloc, hret, hpen⟩ := h
  have hcalls : ∀ j, (Function.update s.calls i c' j).committed = (s.calls j).committed ∧
      (Function.update s.calls i c' j).amount = (s.calls j).amount ∧
      (Function.update s.calls i c' j).pc.critical = (s.calls j).pc.critical ∧
      (Function.update s.calls i c' j).balance = (s.calls j).balance := by
    intro j
    by_cases hj : j = i
    · subst hj; simp [hc, ha, hk, hb]
    · simp [Function.update_noteq hj]
  have hset : settled b (⟨s.db, n, s.accountId, l, Function.update s.calls i c'⟩ : Sys)
      = settled b s :=
    settled_congr (fun j => ⟨(hcalls j).1, (hcalls j).2.1⟩)
  refine ⟨?_, ?_, ?_, ?_, ?_, ?_⟩
  · exact ⟨by rw [(hcalls false).2.1]; exact hamt.1, by rw [(hcalls true).2.1]; exact hamt.2⟩
  · rw [hset]; exact hst
  · intro j
    show l = some j ↔ (Function.update s.calls i c' j).pc.critical = true
    rw [(hcalls j).2.2.1, hl]
    exact hlock j
  · intro j hj
    show (Function.update s.calls i c' j).balance
      = wrapInt (settled b _ + (Function.update s.calls i c' j).amount)
    have hj' : (Function.update s.calls i c' j).pc.critical = true := hj
    rw [(hcalls j).2.2.1] at hj'
    rw [hset, (hcalls j).2.2.2, (hcalls j).2.1]
    exact hloc j hj'
  · intro j hj
    by_cases hji : j = i
    · subst hji
      have hj' : (Function.update s.calls j c' j).pc ≠ .done := hj
      show (Function.update s.calls j c' j).result = none
      rw [Function.update_same] at hj' ⊢
      exact hr hj'
    · have hj' : (Function.update s.calls i c' j).pc ≠ .done := hj
      show (Function.update s.calls i c' j).result = none
      rw [Function.update_noteq hji] at hj' ⊢
      exact hret j hj'
  · intro j hj
    by_cases hji : j = i
    · subst hji
      have hj' : (Function.update s.calls j c' j).pc = .commit := hj
      show (Function.update s.calls j c' j).transaction ≠ none
      rw [Function.update_same] at hj' ⊢
      exact hp hj'
    · have hj' : (Function.update s.calls i c' j).pc = .commit := hj
      show (Function.update s.calls i c' j).transaction ≠ none
      rw [Function.update_noteq hji] at hj' ⊢
      exact hpen j hj'

/-- A call that gives up keeps the invariant: nothing it wrote is committed, and its lock,
if it holds it, is released. -/
theorem RunInv_rollback {b x y : Int} {s : Sys} (h : RunInv b x y s) (i : Bool) (n : Nat)
    (err : Error) (hpc : (s.calls i).pc ≠ .done) :
    RunInv b x y (rollback (⟨s.db, n, s.accountId, s.lockedBy, s.calls⟩ : Sys) i err) := by
  obtain ⟨hamt, hst, hlock, hloc, hret, hpen⟩ := h
  have hi : ((rollback (⟨s.db, n, s.accountId, s.lockedBy, s.calls⟩ : Sys) i err).calls i)
      = { s.calls i with pc := .done, result := some (.error err) } := by
    simp [rollback, Sys.setCall]
  have hne : ∀ j, j ≠ i →
      (rollback (⟨s.db, n, s.accountId, s.lockedBy, s.calls⟩ : Sys) i err).calls j
        = s.calls j := by
    intro j hj
    simp [rollback, Sys.setCall, Function.update_noteq hj]
  have hcalls : ∀ j,
      ((rollback (⟨s.db, n, s.accountId, s.lockedBy, s.calls⟩ : Sys) i err).calls j).committed
        = (s.calls j).committed ∧
      ((rollback (⟨s.db, n, s.accountId, s.lockedBy, s.calls⟩ : Sys) i err).calls j).amount
        = (s.calls j).amount := by
    intro j
    by_cases hj : j = i
    · subst hj
      rw [hi]
      exact ⟨by rw [committed_of_result_none (hret j hpc)]; rfl, rfl⟩
    · rw [hne j hj]; exact ⟨rfl, rfl⟩
  have hset := @settled_congr b s _ hcalls
  refine ⟨?_, ?_, ?_, ?_, ?_, ?_⟩
  · exact ⟨by rw [(hcalls false).2]; exact hamt.1, by rw [(hcalls true).2]; exact hamt.2⟩
  · rw [hset]; exact hst
  · intro j
    show (if s.lockedBy = some i then none else s.lockedBy) = some j ↔ _
    by_cases hj : j = i
    · subst hj
      rw [hi]
      by_cases hl : s.lockedBy = some j
      · simp [hl, Pc.critical]
      · simp [hl, Pc.critical]
    · rw [hne j hj, ← hlock j]
      by_cases hl : s.lockedBy = some i
      · have : some i ≠ some j := fun e => hj (Option.some.inj e).symm
        simp [hl, this]
      · simp [hl]
  · intro j hj
    by_cases hji : j = i
    · subst hji
      rw [hi] at hj
      simp [Pc.critical] at hj
    · rw [hne j hji] at hj ⊢
      rw [hset]
      exact hloc j hj
  · intro j hj
    by_cases hji : j = i
    · subst hji
      rw [hi] at hj
      exact absurd rfl hj
    · rw [hne j hji] at hj ⊢
      exact hret j hj
  · intro j hj
    by_cases hji : j = i
    · subst hji
      rw [hi] at hj
      cases hj
    · rw [hne j hji] at hj ⊢
      exact hpen j hj

/-- The lock is free for a call that does not hold it only when nobody holds it. -/
theorem lockedBy_none_of_lockFree {b x y : Int} {s : Sys} (h : RunInv b x y s) {i : Bool}
    (hfree : lockFree s i = true) (hnc : (s.calls i).pc.critical = false) :
    s.lockedBy = none := by
  cases hl : s.lockedBy with
  | none => rfl
  | some j =>
    have hji : j = i := by simpa [lockFree, hl] using hfree
    subst hji
    have := (h.lock j).1 hl
    rw [hnc] at this
    cases this

/-- The `SELECT ... FOR UPDATE` of a call that finds the lock free reads the settled balance
and takes the lock. -/
theorem RunInv_select {b x y : Int} {s : Sys} (h : RunInv b x y s) (i : Bool)
    (hpc : (s.calls i).pc = .select) (hfree : lockFree s i = true) (row : Account)
    (hrow : s.db.accounts.find? (fun a => a.Id == s.accountId) = some row) :
    RunInv b x y (⟨s.db, s.counter, s.accountId, some i,
      Function.update s.calls i
        { s.calls i with pc := .update,
                         balance := wrapInt (row.Balance + (s.calls i).amount) }⟩ : Sys) := by
  have hnone : s.lockedBy = none :=
    lockedBy_none_of_lockFree h hfree (by rw [hpc]; rfl)
  obtain ⟨hamt, hst, hlock, hloc, hret, hpen⟩ := h
  have hbal : row.Balance = settled b s := by
    have : balanceOf s.db s.accountId = some row.Balance := by
      simp [balanceOf, hrow]
    rw [this] at hst
    exact Option.some.inj hst
  have hcalls : ∀ j, (Function.update s.calls i
        { s.calls i with pc := .update,
                         balance := wrapInt (row.Balance + (s.calls i).amount) } j).committed
        = (s.calls j).committed ∧
      (Function.update s.calls i
        { s.calls i with pc := .update,
                         balance := wrapInt (row.Balance + (s.calls i).amount) } j).amount
        = (s.calls j).amount := by
    intro j
    by_cases hj : j = i
    · subst hj; simp [Call.committed]
    · simp [Function.update_noteq hj]
  have hset := @settled_congr b s (⟨s.db, s.counter, s.accountId, some i,
      Function.update s.calls i
        { s.calls i with pc := .update,
                         balance := wrapInt (row.Balance + (s.calls i).amount) }⟩ : Sys) hcalls
  have hnc : ∀ j, (s.calls j).pc.critical = false := by
    intro j
    cases hc : (s.calls j).pc.critical with
    | false => rfl
    | true =>
      have := (hlock j).2 hc
      rw [hnone] at this
      cases this
  refine ⟨?_, ?_, ?_, ?_, ?_, ?_⟩
  · exact ⟨by rw [(hcalls false).2]; exact hamt.1, by rw [(hcalls true).2]; exact hamt.2⟩
  · rw [hset]; exact hst
  · intro j
    by_cases hj : j = i
    · subst hj
      simp [Pc.critical]
    · have : some i ≠ some j := fun e => hj (Option.some.inj e).symm
      simp [Function.update_noteq hj, hnc j, this]
  · intro j hj
    by_cases hji : j = i
    · subst hji
      rw [hset]
      simp [hbal]
    · have hj' : (Function.update s.calls i
        { s.calls i with pc := .update,
                         balance := wrapInt (row.Balance + (s.calls i).amount) } j).pc.critical
          = true := hj
      rw [Function.update_noteq hji, hnc j] at hj'
      cases hj'
  · intro j hj
    by_cases hji : j = i
    · subst hji
      simpa using hret j (by rw [hpc]; decide)
    · have hj' : (Function.update s.calls i
        { s.calls i with pc := .update,
                         balance := wrapInt (row.Balance + (s.calls i).amount) } j).pc
          ≠ .done := hj
      show (Function.update s.calls i _ j).result = none
      rw [Function.update_noteq hji] at hj' ⊢
      exact hret j hj'
  · intro j hj
    by_cases hji : j = i
    · subst hji
      have hj' : (Function.update s.calls j
        { s.calls j with pc := .update,
                         balance := wrapInt (row.Balance + (s.calls j).amount) } j).pc
          = .commit := hj
      rw [Function.update_same] at hj'
      cases hj'
    · have hj' : (Function.update s.calls i
        { s.calls i with pc := .update,
                         balance := wrapInt (row.Balance + (s.calls i).amount) } j).pc
          = .commit := hj
      show (Function.update s.calls i _ j).transaction ≠ none
      rw [Function.update_noteq hji] at hj' ⊢
      exact hpen j hj'

/-- What the committed deposits leave once call `i`, not committed before, commits. -/
theorem settled_commit {b : Int} {s s' : Sys} (i : Bool)
    (hci : (s.calls i).committed = false) (hci' : (s'.calls i).committed = true)
    (hother : ∀ j, j ≠ i → s'.calls j = s.calls j)
    (hamt : (s'.calls i).amount = (s.calls i).amount) :
    settled b s' = wrapInt (settled b s + (s.calls i).amount) := by
  cases i
  · have ht := hother true (by decide)
    cases hcj : (s.calls true).committed
    · simp only [settled, hci, hci', ht, hcj, hamt]
    · simp only [settled, hci, hci', ht, hcj, hamt]
      rw [wrapInt_wrapInt_add]
      exact wrapInt_congr (by omega)
  · have hf := hother false (by decide)
    cases hcj : (s.calls false).committed
    · simp only [settled, hci, hci', hf, hcj, hamt]
    · simp only [settled, hci, hci', hf, hcj, hamt]
      rw [wrapInt_wrapInt_add]

/-- The `COMMIT` of the call that holds the lock stores its local balance, which is what
the committed deposits leave with its own amount added, and releases the lock. -/
theorem RunInv_commit {b x y : Int} {s : Sys} (h : RunInv b x y s) (i : Bool)
    (hpc : (s.calls i).pc = .commit) (t : Transaction) (now : Time) :
    RunInv b x y (⟨⟨s.db.accounts.map (setBalance s.accountId (s.calls i).balance now),
        s.db.transactions ++ [t]⟩, s.counter, s.accountId, none,
      Function.update s.calls i
        { s.calls i with pc := .done, result := some (.ok t) }⟩ : Sys) := by
  have hcrit : (s.calls i).pc.critical = true := by rw [hpc]; rfl
  obtain ⟨hamt, hst, hlock, hloc, hret, hpen⟩ := h
  have hli : s.lockedBy = some i := (hlock i).2 hcrit
  have hnc : ∀ j, j ≠ i → (s.calls j).pc.critical = false := by
    intro j hj
    cases hc : (s.calls j).pc.critical with
    | false => rfl
    | true =>
      have := (hlock j).2 hc
      rw [hli] at this
      exact absurd (Option.some.inj this).symm hj
  have hci : (s.calls i).committed = false :=
    committed_of_result_none (hret i (by rw [hpc]; decide))
  have hother : ∀ j, j ≠ i → Function.update s.calls i
      { s.calls i with pc := .done, result := some (.ok t) } j = s.calls j :=
    fun j hj => Function.update_noteq hj _ _
  have hset := @settled_commit b s
      (⟨⟨s.db.accounts.map (setBalance s.accountId (s.calls i).balance now),
        s.db.transactions ++ [t]⟩, s.counter, s.accountId, none,
      Function.update s.calls i
        { s.calls i with pc := .done, result := some (.ok t) }⟩ : Sys) i hci
      (by simp [Call.committed]) hother (by simp)
  refine ⟨?_, ?_, ?_, ?_, ?_, ?_⟩
  · constructor
    · show (Function.update s.calls i _ false).amount = x
      by_cases hj : false = i
      · subst hj; simpa using hamt.1
      · rw [Function.update_noteq hj]; exact hamt.1
    · show (Function.update s.calls i _ true).amount = y
      by_cases hj : true = i
      · subst hj; simpa using hamt.2
      · rw [Function.update_noteq hj]; exact hamt.2
  · rw [hset, ← hloc i hcrit]
    show balanceOf (⟨s.db.accounts.map (setBalance s.accountId (s.calls i).balance now),
        s.db.transactions ++ [t]⟩ : Store) s.accountId = _
    rw [balanceOf_update rfl, if_pos rfl, hst]
    rfl
  · intro j
    show (none : Option Bool) = some j ↔ (Function.update s.calls i _ j).pc.critical = true
    by_cases hj : j = i
    · subst hj
      simp [Pc.critical]
    · rw [hother j hj, hnc j hj]
      simp
  · intro j hj
    have hj' : (Function.update s.calls i
        { s.calls i with pc := .done, result := some (.ok t) } j).pc.critical = true := hj
    by_cases hji : j = i
    · subst hji
      rw [Function.update_same] at hj'
      cases hj'
    · rw [hother j hji, hnc j hji] at hj'
      cases hj'
  · intro j hj
    have hj' : (Function.update s.calls i
        { s.calls i with pc := .done, result := some (.ok t) } j).pc ≠ .done := hj
    show (Function.update s.calls i _ j).result = none
    by_cases hji : j = i
    · subst hji
      rw [Function.update_same] at hj'
      exact absurd rfl hj'
    · rw [hother j hji] at hj' ⊢
      exact hret j hj'
  · intro j hj
    have hj' : (Function.update s.calls i
        { s.calls i with pc := .done, result := some (.ok t) } j).pc = .commit := hj
    show (Function.update s.calls i _ j).transaction ≠ none
    by_cases hji : j = i
    · subst hji
      rw [Function.update_same] at hj'
      cases hj'
    · rw [hother j hji] at hj' ⊢
      exact hpen j hj'

/-- Every statement of a run with `SELECT ... FOR UPDATE` keeps the invariant. -/
theorem RunInv_step {b x y : Int} {s s' : Sys} {i : Bool} (h : RunInv b x y s)
    (hs : step true s i = some s') : RunInv b x y s' := by
  unfold step at hs
  simp only at hs
  cases hpc : (s.calls i).pc <;> simp only [hpc] at hs
  · -- check
    split at hs
    · injection hs with hs; subst hs
      exact RunInv_local h i _ s.counter s.lockedBy rfl rfl
        (by rw [committed_of_result_none (h.returned i (by rw [hpc]; decide))]; rfl)
        (by rw [hpc]; rfl) rfl (fun hne => absurd rfl hne) (fun hc => by cases hc)
    · injection hs with hs; subst hs
      exact RunInv_local h i _ s.counter s.lockedBy rfl rfl
        (by
          have hr := h.returned i (by rw [hpc]; decide)
          simp [Call.committed, hr])
        (by rw [hpc]; rfl) rfl (fun _ => h.returned i (by rw [hpc]; decide))
        (fun hc => by cases hc)
  · -- begin
    split at hs
    · injection hs with hs; subst hs
      exact RunInv_local h i _ s.counter s.lockedBy rfl rfl
        (by rw [committed_of_result_none (h.returned i (by rw [hpc]; decide))]; rfl)
        (by rw [hpc]; rfl) rfl (fun hne => absurd rfl hne) (fun hc => by cases hc)
    · injection hs with hs; subst hs
      exact RunInv_local h i _ s.counter s.lockedBy rfl rfl
        (by
          have hr := h.returned i (by rw [hpc]; decide)
          simp [Call.committed, hr])
        (by rw [hpc]; rfl) rfl (fun _ => h.returned i (by rw [hpc]; decide))
        (fun hc => by cases hc)
  · -- select
    split at hs
    · cases hs
    · rename_i hfree
      have hfree' : lockFree s i = true := by simpa using hfree
      split at hs
      · injection hs with hs; subst hs
        exact RunInv_rollback h i s.counter _ (by rw [hpc]; decide)
      · split at hs
        · injection hs with hs; subst hs
          exact RunInv_rollback h i s.counter _ (by rw [hpc]; decide)
        · rename_i row hrow
          injection hs with hs; subst hs
          exact RunInv_select h i hpc hfree' row hrow
  · -- update
    split at hs
    · cases hs
    · split at hs
      · injection hs with hs; subst hs
        exact RunInv_rollback h i s.counter _ (by rw [hpc]; decide)
      · injection hs with hs; subst hs
        exact RunInv_local h i _ s.counter (some i)
          ((h.lock i).2 (by rw [hpc]; rfl)).symm rfl
          (by
            have hr := h.returned i (by rw [hpc]; decide)
            simp [Call.committed, hr])
          (by rw [hpc]; rfl) rfl (fun _ => h.returned i (by rw [hpc]; decide))
          (fun hc => by cases hc)
  · -- insert
    split at hs
    · injection hs with hs; subst hs
      exact RunInv_rollback h i _ _ (by rw [hpc]; decide)
    · injection hs with hs; subst hs
      exact RunInv_local h i _ _ s.lockedBy rfl rfl
        (by
          have hr := h.returned i (by rw [hpc]; decide)
          simp [Call.committed, hr])
        (by rw [hpc]; rfl) rfl (fun _ => h.returned i (by rw [hpc]; decide))
        (fun _ => by simp)
  · -- commit
    split at hs
    · injection hs with hs; subst hs
      exact RunInv_rollback h i s.counter _ (by rw [hpc]; decide)
    · split at hs
      · cases hs
      · rename_i t ht
        injection hs with hs; subst hs
        exact RunInv_commit h i hpc t _
  · cases hs

/-- Every permitted run with `SELECT ... FOR UPDATE` keeps the invariant. -/
theorem RunInv_run {b x y : Int} (schedule : List Bool) :
    ∀ {s s' : Sys}, RunInv b x y s → run true s schedule = some s' → RunInv b x y s' := by
  induction schedule with
  | nil =>
    intro s s' h hr
    injection hr with hr
    subst hr
    exact h
  | cons i rest ih =>
    intro s s' h hr
    simp only [run] at hr
    cases hst : step true s i with
    | none => rw [hst] at hr; cases hr
    | some s1 =>
      rw [hst] at hr
      exact ih (RunInv_step h hst) hr

/-- A call that runs alone does what `DepositFunds` does: the six statements of a
successful call, run one after the other with nothing in between, leave the database, the
counter and the transaction of the method. -/
theorem run_alone (w w' : World) (a : Identifier) (e1 e2 : MoveEnv) (x y : Int) (d1 d2 : Text)
    (t : Transaction) (h : DepositFunds e1 w a x d1 = (.ok t, w')) :
    ∃ s, run true (Sys.start w a e1 e2 x y d1 d2) [false, false, false, false, false, false]
        = some s ∧
      s.db = w'.db ∧ s.counter = w'.counter ∧ (s.calls false).result = some (.ok t) ∧
      s.calls true = Call.start e2 y d2 ∧ s.lockedBy = none := by
  rw [DepositFunds_eq] at h
  unfold moveFunds txAccountBalanceUpdate execTransactionInsert at h
  simp only at h
  split at h
  · cases h
  · rename_i huniq
    split at h
    · cases h
    · rename_i hbegin
      split at h
      · cases h
      · rename_i tx htx
        split at htx
        · cases htx
        · rename_i hsel
          split at htx
          · cases htx
          · rename_i row hrow
            split at htx
            · cases htx
            · rename_i hupd
              injection htx with htx
              subst htx
              split at h
              · cases h
              · rename_i tx2 htx2
                split at htx2
                · cases htx2
                · rename_i hins
                  injection htx2 with htx2
                  subst htx2
                  split at h
                  · cases h
                  · rename_i hcom
                    injection h with ht hw
                    injection ht with ht
                    subst ht hw
                    simp only [Bool.or_eq_true, not_or, Bool.not_eq_true, Bool.not_eq_false,
                      Bool.not_eq_eq_eq_not, Bool.not_true, Bool.not_false] at huniq hbegin hsel hupd hins hcom
                    have hkeys : transactionKeysFree w.db
                        { Id := (New w.counter e1.newId.timeInt e1.newId.rng).1,
                          IdempotencyKey := generateIdempotencyKey e1.key a x .Credit,
                          AccountId := a, Amount := x, TransactionType := .Credit,
                          TransactionDate := e1.now, Status := .Complete,
                          Description := some d1 } = true := hins.2
                    simp [run, step, Sys.start, Call.start, Sys.setCall, lockFree, huniq, hbegin,
                      hsel, hupd, hins.1, hcom, hrow, hkeys, setBalance]

/-- A call that has not returned and cannot move waits for the lock, which the other call
holds, and the other call can move: the two calls never block each other for good. -/
theorem step_progress {b x y : Int} {s : Sys} (h : RunInv b x y s) (i : Bool)
    (hpc : (s.calls i).pc ≠ .done) :
    (∃ u, step true s i = some u) ∨ (∃ u, step true s (!i) = some u) := by
  have hcan : ∀ j, (s.calls j).pc.critical = true → ∃ u, step true s j = some u := by
    intro j hj
    have hl : lockFree s j = true := by
      simp [lockFree, (h.lock j).2 hj]
    cases hp : (s.calls j).pc
    case update =>
      unfold step
      simp only [hp, hl, Bool.not_true, Bool.false_eq_true, if_false]
      split <;> exact ⟨_, rfl⟩
    case insert =>
      unfold step
      simp only [hp]
      split <;> exact ⟨_, rfl⟩
    case commit =>
      unfold step
      simp only [hp]
      split
      · exact ⟨_, rfl⟩
      · cases ht : (s.calls j).transaction with
        | none => exact absurd ht (h.pending j hp)
        | some t => exact ⟨_, rfl⟩
    all_goals (rw [hp] at hj; cases hj)
  cases hc : (s.calls i).pc.critical
  · cases hp : (s.calls i).pc
    case done => exact absurd hp hpc
    case check =>
      left; unfold step; simp only [hp]; split <;> exact ⟨_, rfl⟩
    case begin =>
      left; unfold step; simp only [hp]; split <;> exact ⟨_, rfl⟩
    case select =>
      cases hl : s.lockedBy with
      | none =>
        left
        have hf : lockFree s i = true := by simp [lockFree, hl]
        unfold step
        simp only [hp, hf, Bool.not_true, Bool.and_false, Bool.false_eq_true, if_false]
        split
        · exact ⟨_, rfl⟩
        · split <;> exact ⟨_, rfl⟩
      | some j =>
        have hj := (h.lock j).1 hl
        have hji : j = !i := by
          cases i <;> cases j <;> simp_all
        right
        rw [← hji]
        exact hcan j hj
    all_goals (rw [hp] at hc; cases hc)
  · exact Or.inl (hcan i hc)

/-- A statement brings its call nearer to its end and leaves the other call as it is. -/
theorem step_rank {fu : Bool} {s u : Sys} {i : Bool} (h : step fu s i = some u) :
    (u.calls i).pc.rank < (s.calls i).pc.rank ∧ u.calls (!i) = s.calls (!i) := by
  have hne : (!i) ≠ i := by cases i <;> decide
  unfold step at h
  simp only at h
  cases hpc : (s.calls i).pc <;> simp only [hpc] at h
  all_goals repeat' split at h
  all_goals first
    | (cases h; done)
    | (injection h with h; subst h
       simp [rollback, Sys.setCall, Pc.rank, Function.update_noteq hne])

/-- From every state of a run with `SELECT ... FOR UPDATE` the two calls can be brought to
their end: some schedule that the lock permits makes both return. -/
theorem run_completes {b x y : Int} (n : Nat) :
    ∀ s : Sys, RunInv b x y s → (s.calls false).pc.rank + (s.calls true).pc.rank ≤ n →
      ∃ schedule u, run true s schedule = some u ∧ ∀ i, (u.calls i).pc = .done := by
  induction n with
  | zero =>
    intro s _ hn
    refine ⟨[], s, rfl, ?_⟩
    intro i
    have h0 : (s.calls i).pc.rank = 0 := by cases i <;> omega
    cases hp : (s.calls i).pc <;> rw [hp] at h0 <;> first | rfl | cases h0
  | succ n ih =>
    intro s h hn
    by_cases hall : ∀ i, (s.calls i).pc = .done
    · exact ⟨[], s, rfl, hall⟩
    · have hex : ∃ i, (s.calls i).pc ≠ .done := by
        by_contra hno
        exact hall (fun i => by_contra (fun hi => hno ⟨i, hi⟩))
      obtain ⟨i, hi⟩ := hex
      have hmove : ∃ j u, step true s j = some u := by
        rcases step_progress h i hi with ⟨u, hu⟩ | ⟨u, hu⟩
        · exact ⟨i, u, hu⟩
        · exact ⟨!i, u, hu⟩
      obtain ⟨j, u, hu⟩ := hmove
      have hr := step_rank hu
      have hsmall : (u.calls false).pc.rank + (u.calls true).pc.rank ≤ n := by
        cases j
        · have h2 : u.calls true = s.calls true := hr.2
          have h1 := hr.1
          rw [h2]
          omega
        · have h2 : u.calls false = s.calls false := hr.2
          have h1 := hr.1
          rw [h2]
          omega
      obtain ⟨schedule, v, hv, hdone⟩ := ih u (RunInv_step h hu) hsmall
      refine ⟨j :: schedule, v, ?_, hdone⟩
      simp only [run, hu]
      exact hv

/-- C17 (amended). Two concurrent `DepositFunds` calls on the same account, for the amounts
10 and 20, started in a state in which the account holds `b`: after every interleaving of
their statements that the exclusive row lock taken by the `SELECT ... FOR UPDATE` of
`txAccountBalanceUpdate` permits, the stored balance is the one that the calls which
returned a transaction leave. When both calls returned a transaction it is the Go sum of
`b` and 30, which is `b + 30` when that is a value of a Go `int`: no update is lost. When
only one did it is the Go sum of `b` and the amount of that call, and `b` when neither
did. And the calls never block each other for good: the run can be continued, as the
lock permits, until both calls have returned. -/
theorem DepositFunds_concurrent (w : World) (a : Identifier) (e1 e2 : MoveEnv) (d1 d2 : Text)
    (b : Int) (schedule : List Bool) (s : Sys)
    (hb : balanceOf w.db a = some b)
    (hrun : run true (Sys.start w a e1 e2 10 20 d1 d2) schedule = some s) :
    (∀ t1 t2, (s.calls false).result = some (.ok t1) → (s.calls true).result = some (.ok t2) →
      balanceOf s.db a = some (wrapInt (b + 30)) ∧
      (inIntRange (b + 30) → balanceOf s.db a = some (b + 30))) ∧
    (∀ t1, (s.calls false).result = some (.ok t1) → (s.calls true).committed = false →
      balanceOf s.db a = some (wrapInt (b + 10))) ∧
    (∀ t2, (s.calls false).committed = false → (s.calls true).result = some (.ok t2) →
      balanceOf s.db a = some (wrapInt (b + 20))) ∧
    ((s.calls false).committed = false → (s.calls true).committed = false →
      balanceOf s.db a = some b) ∧
    (∃ rest u, run true s rest = some u ∧ ∀ i, (u.calls i).pc = .done) := by
  have hinv : RunInv b 10 20 s := RunInv_run schedule (RunInv_start w a e1 e2 10 20 d1 d2 b hb) hrun
  have hacc : s.accountId = a := run_accountId schedule hrun
  have hst := hinv.stored
  rw [hacc] at hst
  have ha1 := hinv.amounts.1
  have ha2 := hinv.amounts.2
  refine ⟨?_, ?_, ?_, ?_, run_completes _ s hinv (Nat.le_refl _)⟩
  · intro t1 t2 h1 h2
    have hc1 : (s.calls false).committed = true := by simp [Call.committed, h1]
    have hc2 : (s.calls true).committed = true := by simp [Call.committed, h2]
    have hset : settled b s = wrapInt (b + 30) := by
      simp only [settled, hc1, hc2, ha1, ha2]
      exact wrapInt_congr (by omega)
    rw [hst, hset]
    exact ⟨rfl, fun hr => by rw [wrapInt_of_inRange _ hr]⟩
  · intro t1 h1 hc2
    have hc1 : (s.calls false).committed = true := by simp [Call.committed, h1]
    rw [hst]
    simp only [settled, hc1, hc2, ha1]
  · intro t2 hc1 h2
    have hc2 : (s.calls true).committed = true := by simp [Call.committed, h2]
    rw [hst]
    simp only [settled, hc1, hc2, ha2]
  · intro hc1 hc2
    rw [hst]
    simp only [settled, hc1, hc2]

/-- C17, an instance: on an account that holds 100, the first call runs to its end and
then the second; both return their transaction and the account holds 130. -/
theorem DepositFunds_concurrent_witness :
    ∃ s t1 t2, run true demoSys oneAfterTheOther = some s ∧
      balanceOf demoW2.db demoA = some 100 ∧
      (s.calls false).result = some (.ok t1) ∧ (s.calls true).result = some (.ok t2) ∧
      balanceOf s.db demoA = some 130 :=
  have hsome : (run true demoSys oneAfterTheOther).isSome = true := rfl
  have hs : run true demoSys oneAfterTheOther
      = some ((run true demoSys oneAfterTheOther).get hsome) := (Option.some_get hsome).symm
  ⟨_, _, _, hs, rfl, rfl, rfl,
    ((DepositFunds_concurrent demoW2 demoA (demoMove 7 1007) (demoMove 8 1008) [] [] 100
        oneAfterTheOther _ rfl hs).1 _ _ rfl rfl).2 (by unfold inIntRange; decide)⟩

/-- C17, refuted as stated. On an account that holds `2 ^ 63 - 1` the two deposits, one
after the other, both return their transaction, and the stored balance is
`-9223372036854775779`, not the starting balance plus 30. On an account that holds 100,
when the `COMMIT` of the second call fails, that call returns the error and the account
holds 110. -/
theorem DepositFunds_concurrent_counterexample :
    (balanceOf demoO1.db demoA = some demoMax ∧
     (∃ s t1 t2, run true demoSysMax oneAfterTheOther = some s ∧
       (s.calls false).result = some (.ok t1) ∧ (s.calls true).result = some (.ok t2) ∧
       balanceOf s.db demoA = some (-9223372036854775779) ∧
       balanceOf s.db demoA ≠ some (demoMax + 30))) ∧
    (balanceOf demoW2.db demoA = some 100 ∧
     (∃ s t1, run true demoSysFail oneAfterTheOther = some s ∧
       (s.calls false).result = some (.ok t1) ∧
       (s.calls true).result = some (.error .commitFailed) ∧
       balanceOf s.db demoA = some 110 ∧
       balanceOf s.db demoA ≠ some (100 + 30))) :=
  ⟨⟨rfl, _, _, _, rfl, rfl, rfl, rfl, by decide⟩,
   ⟨rfl, _, _, rfl, rfl, rfl, rfl, by decide⟩⟩

/-- Without `FOR UPDATE` an update is lost: when both calls read the balance 100 before
either writes it, both return their transaction and the account holds 120. The lock of the
`SELECT` is what the result above rests on. -/
theorem lost_update_without_lock :
    run true demoSys bothReadFirst = none ∧
    ∃ s t1 t2, run false demoSys bothReadFirst = some s ∧
      (s.calls false).result = some (.ok t1) ∧ (s.calls true).result = some (.ok t2) ∧
      balanceOf s.db demoA = some 120 :=
  ⟨rfl, _, _, _, rfl, rfl, rfl, rfl⟩

end accounts
